import Mathlib

/-!
# m3m-telegram: handler dispatch and bot-instance lifecycle

A shallow embedding of `handlers.go` (`handleUpdate`, `callHandler`, the
registration closures) and of `plugin.go` (`startBot`, `stopBot`, `stopAll`),
with the properties the design document states about them.

Conventions of the embedding.

* A Go `string` is a finite sequence of bytes (`GoString`); `len`, indexing
  and slicing work on bytes and raise a run-time panic when out of range.
* A Go `map[string]V` is a finite list of entries with pairwise distinct
  keys (`GoMap`).  The order of the list is the order in which a `range`
  statement yields the entries; Go leaves that order unspecified, so a
  statement quantified over every `GoMap` covers every iteration order.
* A handler is an opaque callable.  What a call does is given by an oracle
  `run`, which says whether the call returns a value, returns an error (a
  thrown script exception) or panics.
* The observable behaviour of a dispatch is a trace of effects (handler
  calls, console output) together with the way the Go function completes:
  a normal return or a panic that propagates to the caller.  Each handler
  call is recorded with the slot the handler was read from (a key of the
  table, or the `defaultHandler` field).
* A `*BotInstance` is a position in the list of the instances allocated so
  far; cancelling an instance's context sets its `cancelled` flag.
* A setup callback is given by the registration calls it makes on the new
  instance, in order, and by whether it then returns an error; whether
  `bot.New` succeeds is an input of `startBot`.
* `startBot`, `stopBot` and `stopAll` hold the plugin's lock from entry to
  return; each is one transition of the plugin state, and a history of the
  plugin is a sequence of such calls.
-/

namespace Telegram

/-! ## Go strings -/

/-- One byte of a Go string. -/
abbrev Byte := UInt8

/-- A Go `string`: an immutable sequence of bytes. -/
abbrev GoString := List Byte

/-- The bytes of an ASCII literal. -/
def ascii (s : String) : GoString := s.toList.map (fun c => c.toNat.toUInt8)

/-- Run-time panics: the two range checks of the Go runtime, and a value
raised by a handler. -/
inductive Panic where
  | indexOutOfRange
  | sliceOutOfRange
  | raised (detail : GoString)
  deriving DecidableEq, Repr

deriving instance DecidableEq for Except

/-- Go `len(s)`, of type `int`. -/
def len (s : GoString) : Int := s.length

/-- Go `s[i]`: panics unless `0 <= i < len(s)`. -/
def index (s : GoString) (i : Int) : Except Panic Byte :=
  if 0 ≤ i ∧ i < len s then
    match s[i.toNat]? with
    | some b => .ok b
    | none => .error .indexOutOfRange
  else .error .indexOutOfRange

/-- Go `s[lo:hi]`: panics unless `0 <= lo <= hi <= len(s)`. -/
def slice (s : GoString) (lo hi : Int) : Except Panic GoString :=
  if 0 ≤ lo ∧ lo ≤ hi ∧ hi ≤ len s then
    .ok ((s.take hi.toNat).drop lo.toNat)
  else .error .sliceOutOfRange

/-! ## Go maps -/

/-- Value stored under `k` in a list of entries (first hit). -/
def lookupEntries {V : Type} (k : GoString) : List (GoString × V) → Option V
  | [] => none
  | (k', v) :: rest => if k' = k then some v else lookupEntries k rest

/-- Entries after `m[k] = v`: the value is replaced where the key is
present, a new entry is added otherwise. -/
def setEntries {V : Type} (k : GoString) (v : V) : List (GoString × V) → List (GoString × V)
  | [] => [(k, v)]
  | (k', v') :: rest => if k' = k then (k, v) :: rest else (k', v') :: setEntries k v rest

/-- Entries after `delete(m, k)`. -/
def deleteEntries {V : Type} (k : GoString) : List (GoString × V) → List (GoString × V)
  | [] => []
  | (k', v') :: rest => if k' = k then deleteEntries k rest else (k', v') :: deleteEntries k rest

/-- A Go `map[string]V`. -/
structure GoMap (V : Type) where
  entries : List (GoString × V)
  nodup : (entries.map Prod.fst).Nodup

namespace GoMap

variable {V : Type}

/-- Go `make(map[string]V)`. -/
def empty : GoMap V := ⟨[], List.nodup_nil⟩

/-- Go `v, ok := m[k]`. -/
def lookup (m : GoMap V) (k : GoString) : Option V := lookupEntries k m.entries

/-- Go `m[k] = v`. -/
def set (m : GoMap V) (k : GoString) (v : V) : GoMap V :=
  ⟨setEntries k v m.entries, by
    have keys : ∀ l : List (GoString × V), (setEntries k v l).map Prod.fst =
        if k ∈ l.map Prod.fst then l.map Prod.fst else l.map Prod.fst ++ [k] := by
      intro l
      induction l with
      | nil => simp [setEntries]
      | cons e rest ih =>
        obtain ⟨k', v'⟩ := e
        by_cases h : k' = k
        · subst h; simp [setEntries]
        · have h' : ¬ k = k' := fun e => h e.symm
          simp only [setEntries, h, if_false, List.map_cons, ih, List.mem_cons, h', false_or]
          split <;> simp
    rw [keys]
    split
    · exact m.nodup
    · rename_i hk
      exact List.Nodup.append m.nodup (List.nodup_singleton k) (by
        intro a ha hb
        simp only [List.mem_singleton] at hb
        exact hk (hb ▸ ha))⟩

/-- Go `delete(m, k)`. -/
def delete (m : GoMap V) (k : GoString) : GoMap V :=
  ⟨deleteEntries k m.entries, by
    have keys : ∀ l : List (GoString × V),
        ((deleteEntries k l).map Prod.fst).Sublist (l.map Prod.fst) := by
      intro l
      induction l with
      | nil => simp [deleteEntries]
      | cons e rest ih =>
        obtain ⟨k', v'⟩ := e
        by_cases h : k' = k
        · simp only [deleteEntries, h, if_true, List.map_cons]
          exact List.Sublist.cons _ ih
        · simp only [deleteEntries, h, if_false, List.map_cons]
          exact List.Sublist.cons₂ _ ih
    exact m.nodup.sublist (keys m.entries)⟩

end GoMap

/-! ## Updates, handlers and effects -/

/-- The part of `models.Message` the dispatcher reads. -/
structure Message where
  Text : GoString
  deriving DecidableEq, Repr

/-- The part of `models.CallbackQuery` the dispatcher reads. -/
structure CallbackQuery where
  Data : GoString
  deriving DecidableEq, Repr

/-- The part of `models.Update` the dispatcher reads: two pointers, each of
which may be nil. -/
structure Update where
  Message : Option Message
  CallbackQuery : Option CallbackQuery
  deriving DecidableEq, Repr

/-- What a call of a `goja.Callable` does: it returns a value, returns an
error (an exception thrown by the script), or panics. -/
inductive HandlerOutcome where
  | value
  | error (detail : GoString)
  | panic (r : Panic)
  deriving DecidableEq, Repr

/-- Where `handleUpdate` read the handler it calls: under a key of the table
of the event's kind, or in the `defaultHandler` field. -/
inductive Slot where
  | entry (pattern : GoString)
  | fallback
  deriving DecidableEq, Repr

/-- Observable effects of a dispatch. -/
inductive Effect (H : Type) where
  | invoke (slot : Slot) (handler : H) (update : Update)
  | print (r : Panic)
  deriving DecidableEq, Repr

/-- Effects of a Go call, in order, and how the call completes: `.ok ()` for
a normal return, `.error r` for a panic that propagates to the caller. -/
structure Result (H : Type) where
  trace : List (Effect H)
  completion : Except Panic Unit
  deriving DecidableEq

namespace Result

variable {H : Type}

/-- A normal return without effects. -/
def done : Result H := ⟨[], .ok ()⟩

/-- The handler calls of a result, in order, each with the slot it was read from. -/
def invoked (r : Result H) : List (Slot × H) :=
  r.trace.filterMap (fun e => match e with
    | .invoke s h _ => some (s, h)
    | .print _ => none)

/-- The console output of a result, in order. -/
def printed (r : Result H) : List Panic :=
  r.trace.filterMap (fun e => match e with
    | .invoke _ _ _ => none
    | .print p => some p)

/-- The call returned normally. -/
def returned (r : Result H) : Prop := r.completion = .ok ()

instance (r : Result H) : Decidable r.returned :=
  inferInstanceAs (Decidable (r.completion = .ok ()))

end Result

/-- A `BotInstance`: the cancellation state of its context and its handler
registry (`handlers` for messages, `callbacks` for callback queries, and the
optional `defaultHandler`). -/
structure BotInstance (H : Type) where
  cancelled : Bool
  handlers : GoMap H
  callbacks : GoMap H
  defaultHandler : Option H

/-! ## handlers.go -/

section Dispatch

variable {H : Type}

/-- Embedding of `callHandler`.  The body builds the context object and calls
the handler; the value or error the handler returns is discarded.  The
deferred function recovers a panic of the body and prints it.  `slot` only
labels the call in the trace. -/
def callHandler (run : H → Update → HandlerOutcome) (slot : Slot) (handler : H)
    (update : Update) : Result H :=
  let body : Result H :=
    match run handler update with
    | .value => ⟨[.invoke slot handler update], .ok ()⟩
    | .error _ => ⟨[.invoke slot handler update], .ok ()⟩
    | .panic r => ⟨[.invoke slot handler update], .error r⟩
  match body.completion with
  | .error r => ⟨body.trace ++ [.print r], .ok ()⟩
  | .ok () => body

/-- The test of the callback loop (lines 29 to 31):
`len(pattern) > 0 && pattern[len(pattern)-1] == '*'`, then with
`prefix := pattern[:len(pattern)-1]` the test
`len(data) >= len(prefix) && data[:len(prefix)] == prefix`. -/
def callbackMatches (pattern data : GoString) : Except Panic Bool :=
  if len pattern > 0 then
    match index pattern (len pattern - 1) with
    | .error p => .error p
    | .ok c =>
      if c = 42 then
        match slice pattern 0 (len pattern - 1) with
        | .error p => .error p
        | .ok pre =>
          if len data ≥ len pre then
            match slice data 0 (len pre) with
            | .error p => .error p
            | .ok head => .ok (decide (head = pre))
          else .ok false
      else .ok false
  else .ok false

/-- The test of the command loop (lines 55 to 59):
`len(pattern) > 0 && pattern[0] == '/'`, then with `cmdLen := len(pattern)`
the test `len(text) >= cmdLen && text[:cmdLen] == pattern`, then
`len(text) == cmdLen || text[cmdLen] == ' ' || text[cmdLen] == '@'`. -/
def commandMatches (pattern text : GoString) : Except Panic Bool :=
  if len pattern > 0 then
    match index pattern 0 with
    | .error p => .error p
    | .ok c =>
      if c = 47 then
        let cmdLen := len pattern
        if len text ≥ cmdLen then
          match slice text 0 cmdLen with
          | .error p => .error p
          | .ok head =>
            if head = pattern then
              if len text = cmdLen then .ok true
              else
                match index text cmdLen with
                | .error p => .error p
                | .ok b =>
                  if b = 32 then .ok true
                  else
                    match index text cmdLen with
                    | .error p => .error p
                    | .ok b' => .ok (decide (b' = 64))
            else .ok false
        else .ok false
      else .ok false
  else .ok false

/-- A `for pattern, handler := range table` loop of `handleUpdate` over the
entries still to visit: the first entry that passes `test` has its handler
called and the function returns (`some`); `none` when the loop ends. -/
def rangeLoop (run : H → Update → HandlerOutcome) (test : GoString → Except Panic Bool)
    (update : Update) : List (GoString × H) → Option (Result H)
  | [] => none
  | (pattern, handler) :: rest =>
    match test pattern with
    | .error p => some ⟨[], .error p⟩
    | .ok true => some (callHandler run (.entry pattern) handler update)
    | .ok false => rangeLoop run test update rest

/-- Embedding of `BotInstance.handleUpdate`. -/
def handleUpdate (run : H → Update → HandlerOutcome) (inst : BotInstance H)
    (update : Update) : Result H :=
  match update.CallbackQuery with
  | some cq =>
    match inst.callbacks.lookup cq.Data with
    | some handler => callHandler run (.entry cq.Data) handler update
    | none =>
      match rangeLoop run (fun pattern => callbackMatches pattern cq.Data) update
          inst.callbacks.entries with
      | some r => r
      | none =>
        match inst.defaultHandler with
        | some handler => callHandler run .fallback handler update
        | none => .done
  | none =>
    match update.Message with
    | some msg =>
      let text := msg.Text
      match inst.handlers.lookup text with
      | some handler => callHandler run (.entry text) handler update
      | none =>
        match rangeLoop run (fun pattern => commandMatches pattern text) update
            inst.handlers.entries with
        | some r => r
        | none =>
          match inst.defaultHandler with
          | some handler => callHandler run .fallback handler update
          | none => .done
    | none => .done

/-- Embedding of the closure returned by `createHandle`. -/
def createHandle (inst : BotInstance H) (pattern : GoString) (handler : H) : BotInstance H :=
  { inst with handlers := inst.handlers.set pattern handler }

/-- Embedding of the closure returned by `createHandleCallback`. -/
def createHandleCallback (inst : BotInstance H) (data : GoString) (handler : H) :
    BotInstance H :=
  { inst with callbacks := inst.callbacks.set data handler }

/-- Embedding of the closure returned by `createHandleDefault`. -/
def createHandleDefault (inst : BotInstance H) (handler : H) : BotInstance H :=
  { inst with defaultHandler := some handler }

end Dispatch

/-- Go sequential composition `f(); g()` of two calls: the second call runs
only when the first one returns normally. -/
def Result.andThen {H : Type} (r₁ r₂ : Result H) : Result H :=
  match r₁.completion with
  | .ok () => ⟨r₁.trace ++ r₂.trace, r₂.completion⟩
  | .error p => ⟨r₁.trace, .error p⟩

/-! ## plugin.go -/

/-- `f` applied to the element at position `n` of a list (none when out of range). -/
def modifyAt {α : Type} (f : α → α) : Nat → List α → List α
  | _, [] => []
  | 0, x :: xs => f x :: xs
  | n + 1, x :: xs => x :: modifyAt f n xs

/-- A call a setup callback makes on the instance object it is given. -/
inductive Registration (H : Type) where
  | handle (pattern : GoString) (handler : H)
  | handleCallback (data : GoString) (handler : H)
  | handleDefault (handler : H)
  deriving DecidableEq, Repr

/-- A setup callback, as far as the registry is concerned: the registration
calls it makes, in order, and whether it then returns an error. -/
structure SetupCallback (H : Type) where
  calls : List (Registration H)
  fails : Bool

/-- One registration call applied to an instance. -/
def register {H : Type} (inst : BotInstance H) : Registration H → BotInstance H
  | .handle pattern handler => createHandle inst pattern handler
  | .handleCallback data handler => createHandleCallback inst data handler
  | .handleDefault handler => createHandleDefault inst handler

/-- The registration calls of a callback applied in order. -/
def runSetup {H : Type} (calls : List (Registration H)) (inst : BotInstance H) : BotInstance H :=
  calls.foldl register inst

/-- The instance `startBot` builds: a fresh context, two empty maps and no
default handler. -/
def newInstance {H : Type} : BotInstance H :=
  { cancelled := false, handlers := GoMap.empty, callbacks := GoMap.empty,
    defaultHandler := none }

/-- State of the plugin: the `BotInstance` objects allocated so far (a
`*BotInstance` is a position in `heap`) and the table `bots` from token to
instance pointer. -/
structure TelegramPlugin (H : Type) where
  heap : List (BotInstance H)
  bots : GoMap Nat

/-- The errors `startBot` returns. -/
inductive StartError where
  | createFailed
  | setupFailed
  deriving DecidableEq, Repr

namespace TelegramPlugin

variable {H : Type}

/-- Go `inst.cancel()` on the instance at `addr`. -/
def cancel (p : TelegramPlugin H) (addr : Nat) : TelegramPlugin H :=
  { p with heap := modifyAt (fun inst => { inst with cancelled := true }) addr p.heap }

/-- Embedding of `TelegramPlugin.startBot`.  `created` says whether
`bot.New` succeeds; `callback` is `none` for a nil callback.  The body runs
under the plugin's lock. -/
def startBot (p : TelegramPlugin H) (token : GoString) (created : Bool)
    (callback : Option (SetupCallback H)) : TelegramPlugin H × Except StartError Unit :=
  -- Stop existing bot with same token
  let p₁ := match p.bots.lookup token with
    | some existing => p.cancel existing
    | none => p
  -- instance := &BotInstance{...}
  let addr := p₁.heap.length
  let p₂ : TelegramPlugin H := { p₁ with heap := p₁.heap ++ [newInstance] }
  -- b, err := bot.New(token, opts...)
  if created = false then
    (p₂.cancel addr, .error .createFailed)
  else
    -- p.bots[token] = instance
    let p₃ : TelegramPlugin H := { p₂ with bots := p₂.bots.set token addr }
    match callback with
    | none => (p₃, .ok ())
    | some cb =>
      let p₄ : TelegramPlugin H := { p₃ with heap := modifyAt (runSetup cb.calls) addr p₃.heap }
      if cb.fails then
        let p₅ := p₄.cancel addr
        ({ p₅ with bots := p₅.bots.delete token }, .error .setupFailed)
      else (p₄, .ok ())

/-- Embedding of `TelegramPlugin.stopBot`.  The body runs under the plugin's
lock. -/
def stopBot (p : TelegramPlugin H) (token : GoString) : TelegramPlugin H :=
  match p.bots.lookup token with
  | some inst =>
    let p₁ := p.cancel inst
    { p₁ with bots := p₁.bots.delete token }
  | none => p

/-- One iteration of the loop of `stopAll` at the entry `(token, instance)`:
`instance.cancel()` and `delete(p.bots, token)`. -/
def stopEntry (p : TelegramPlugin H) (e : GoString × Nat) : TelegramPlugin H :=
  let p₁ := p.cancel e.2
  { p₁ with bots := p₁.bots.delete e.1 }

/-- Embedding of `TelegramPlugin.stopAll`.  The loop ranges over `p.bots` and
deletes the entry it is at; Go yields every entry that is in the map when
the loop starts and is not deleted before it is reached, so the loop visits
each entry of the table once.  The body runs under the plugin's lock. -/
def stopAll (p : TelegramPlugin H) : TelegramPlugin H :=
  p.bots.entries.foldl stopEntry p

/-- The table holds no pointer twice: no two tokens share an instance. -/
def NoSharing (p : TelegramPlugin H) : Prop := (p.bots.entries.map Prod.snd).Nodup

instance (p : TelegramPlugin H) : Decidable p.NoSharing :=
  inferInstanceAs (Decidable (p.bots.entries.map Prod.snd).Nodup)

/-- The cancellation state of the instance at `addr`. -/
def cancelledAt (p : TelegramPlugin H) (addr : Nat) : Option Bool :=
  (p.heap[addr]?).map (fun inst => inst.cancelled)

end TelegramPlugin

/-- An instance after `cancel()`: the flag is set, the registry stays. -/
def markCancelled {H : Type} (inst : BotInstance H) : BotInstance H :=
  { inst with cancelled := true }

/-- A call of one of the three operations the plugin exports to scripts. -/
inductive Op (H : Type) where
  | start (token : GoString) (created : Bool) (callback : Option (SetupCallback H))
  | stop (token : GoString)
  | stopAll

/-- The plugin after one call. -/
def step {H : Type} (p : TelegramPlugin H) : Op H → TelegramPlugin H
  | .start token created callback => (p.startBot token created callback).1
  | .stop token => p.stopBot token
  | .stopAll => p.stopAll

/-- The plugin after a sequence of calls, one after the other. -/
def runOps {H : Type} (p : TelegramPlugin H) (ops : List (Op H)) : TelegramPlugin H :=
  ops.foldl step p

/-- The token each instance was created for, in order of allocation: every
call of `startBot` allocates one instance, whatever its outcome, and the
other operations allocate none. -/
def createdFor {H : Type} : List (Op H) → List GoString
  | [] => []
  | .start token _ _ :: rest => token :: createdFor rest
  | _ :: rest => createdFor rest

/-- The plugin after `Init`: nothing allocated, an empty table. -/
def fresh {H : Type} : TelegramPlugin H := ⟨[], GoMap.empty⟩

/-- The invariant of the instance manager, with `owner` the token each
allocated instance was created for: every table entry points to an instance
created for its token, and every instance that is not cancelled is the
table's entry for the token it was created for. -/
def ManagerInv {H : Type} (p : TelegramPlugin H) (owner : List GoString) : Prop :=
  p.heap.length = owner.length ∧
  (∀ t a, p.bots.lookup t = some a → owner[a]? = some t) ∧
  (∀ a inst, p.heap[a]? = some inst → inst.cancelled = false →
    ∃ t, owner[a]? = some t ∧ p.bots.lookup t = some a)

/-! ## The matching rules, as the design document words them -/

/-- Callback pattern rule: the pattern ends in `*` and the pattern minus
that trailing `*` is a literal prefix of the callback data. -/
def wildcardRule (pattern data : GoString) : Prop :=
  ∃ pre : GoString, pattern = pre ++ [42] ∧ pre <+: data

/-- Command pattern rule: the pattern begins with `/`, the text starts with
the pattern, and the text either ends there or continues with a space or
with `@`. -/
def commandRule (pattern text : GoString) : Prop :=
  pattern.head? = some 47 ∧ pattern <+: text ∧
    (text.length = pattern.length ∨ text[pattern.length]? = some 32 ∨
      text[pattern.length]? = some 64)

/-- The event matches an entry of the table for its kind: for a callback
(an update that carries a callback query) some key of `callbacks` equals the
data or matches it as a wildcard; for a message some key of `handlers`
equals the text or matches it as a command. -/
def matchesEntry {H : Type} (inst : BotInstance H) (update : Update) : Prop :=
  match update.CallbackQuery, update.Message with
  | some cq, _ => ∃ e ∈ inst.callbacks.entries, e.1 = cq.Data ∨ wildcardRule e.1 cq.Data
  | none, some msg => ∃ e ∈ inst.handlers.entries, e.1 = msg.Text ∨ commandRule e.1 msg.Text
  | none, none => False

/-! ## Setup callbacks, as far as the registry sees them -/

/-- The registration calls of a possibly nil callback. -/
def callsOf {H : Type} (callback : Option (SetupCallback H)) : List (Registration H) :=
  match callback with
  | some cb => cb.calls
  | none => []

/-- The handler of the last call in `calls` that `pick` selects, if any. -/
def lastRegistered {H : Type} (pick : Registration H → Option H) : List (Registration H) → Option H
  | [] => none
  | c :: rest =>
    match lastRegistered pick rest with
    | some h => some h
    | none => pick c

/-- Selects the calls `handle(k, _)`. -/
def asHandle {H : Type} (k : GoString) : Registration H → Option H
  | .handle pattern handler => if pattern = k then some handler else none
  | _ => none

/-- Selects the calls `handleCallback(k, _)`. -/
def asCallback {H : Type} (k : GoString) : Registration H → Option H
  | .handleCallback data handler => if data = k then some handler else none
  | _ => none

/-- Selects the calls `handleDefault(_)`. -/
def asDefault {H : Type} : Registration H → Option H
  | .handleDefault handler => some handler
  | _ => none

/-- The callback is nil or returns without error. -/
def succeeds {H : Type} (callback : Option (SetupCallback H)) : Prop :=
  match callback with
  | some cb => cb.fails = false
  | none => True

/-- The heap after the first step of `startBot`: the instance the table
holds for `token`, if any, is cancelled. -/
def retiredHeap {H : Type} (p : TelegramPlugin H) (token : GoString) : List (BotInstance H) :=
  match p.bots.lookup token with
  | some existing => modifyAt (fun inst => { inst with cancelled := true }) existing p.heap
  | none => p.heap

/-! ## Concrete registries, oracles and callbacks -/

/-- A registry with an exact key that a command also matches: the command `/start` (handler 1) is yielded
first by the loop, the literal text `/start hello` (handler 2) second. -/
def exactOverCommand : BotInstance Nat :=
  { cancelled := false
    handlers := ⟨[(ascii "/start", 1), (ascii "/start hello", 2)], by decide⟩
    callbacks := GoMap.empty
    defaultHandler := some 3 }

/-- A registry with one command: the single message entry `/start`. -/
def startOnly : BotInstance Nat :=
  { cancelled := false
    handlers := ⟨[(ascii "/start", 7)], by decide⟩
    callbacks := GoMap.empty
    defaultHandler := none }

/-- A registry with one wildcard: the single callback entry `foo*`. -/
def fooStarOnly : BotInstance Nat :=
  { cancelled := false
    handlers := GoMap.empty
    callbacks := ⟨[(ascii "foo*", 5)], by decide⟩
    defaultHandler := none }

/-- A registry with an exact key that a wildcard also matches: the wildcard `buy*` (handler 1) is yielded
first by the loop, the literal data `buy:42` (handler 2) second. -/
def exactOverWildcard : BotInstance Nat :=
  { cancelled := false
    handlers := GoMap.empty
    callbacks := ⟨[(ascii "buy*", 1), (ascii "buy:42", 2)], by decide⟩
    defaultHandler := some 3 }

/-- A handler oracle: every handler panics whenever it is called. -/
def alwaysPanics : Nat → Update → HandlerOutcome :=
  fun _ _ => .panic (.raised (ascii "boom"))

/-- The plugin after `Init`: no instance allocated, an empty table. -/
def initial : TelegramPlugin Nat := ⟨[], GoMap.empty⟩

/-- A setup callback that registers handler 1 for `/start` and default handler 9. -/
def setupA : Option (SetupCallback Nat) :=
  some ⟨[.handle (ascii "/start") 1, .handleDefault 9], false⟩

/-- A setup callback that registers handler 2 for the callback pattern `foo*`. -/
def setupB : Option (SetupCallback Nat) :=
  some ⟨[.handleCallback (ascii "foo*") 2], false⟩

/-- A setup callback that registers handler 1 for `/start` and then fails. -/
def setupFailing : SetupCallback Nat := ⟨[.handle (ascii "/start") 1], true⟩

/-- A plugin with two live instances: `other` at address 0, started with
`setupA`, and `tok` at address 1, started with `setupB`. -/
def twoBots : TelegramPlugin Nat :=
  ((initial.startBot (ascii "other") true setupA).1.startBot (ascii "tok") true setupB).1

/-- A sequence of calls: `tok` is started, restarted with `bot.New` failing,
restarted with success, then `other` is started and stopped. -/
def history : List (Op Nat) :=
  [.start (ascii "tok") true setupA, .start (ascii "tok") false setupB,
   .start (ascii "tok") true setupB, .start (ascii "other") true none,
   .stop (ascii "other")]

/-- A registry with one plain message pattern, `Help`. -/
def helpOnly : BotInstance Nat :=
  { cancelled := false
    handlers := ⟨[(ascii "Help", 4)], by decide⟩
    callbacks := GoMap.empty
    defaultHandler := none }

/-- A registry whose only message pattern is `foo*`. -/
def fooStarMessage : BotInstance Nat :=
  { cancelled := false
    handlers := ⟨[(ascii "foo*", 6)], by decide⟩
    callbacks := GoMap.empty
    defaultHandler := none }

/-- A registry with two wildcards that both match `abc`; the loop yields
`a*` first. -/
def wildcardsAB : BotInstance Nat :=
  { cancelled := false
    handlers := GoMap.empty
    callbacks := ⟨[(ascii "a*", 1), (ascii "ab*", 2)], by decide⟩
    defaultHandler := none }

/-- The registry `wildcardsAB` with the same entries; the loop yields `ab*`
first. -/
def wildcardsBA : BotInstance Nat :=
  { cancelled := false
    handlers := GoMap.empty
    callbacks := ⟨[(ascii "ab*", 2), (ascii "a*", 1)], by decide⟩
    defaultHandler := none }

/-- A handler oracle: every handler returns an error with the detail
`TypeError` (the script threw). -/
def alwaysThrows : Nat → Update → HandlerOutcome :=
  fun _ _ => .error (ascii "TypeError")

/-- A registry with the command `/start`, the wildcard `foo*` and a default
handler. -/
def bothTables : BotInstance Nat :=
  { cancelled := false
    handlers := ⟨[(ascii "/start", 1)], by decide⟩
    callbacks := ⟨[(ascii "foo*", 5)], by decide⟩
    defaultHandler := some 3 }

/-! ## Strings: the range checks succeed where the code guards them -/

theorem index_of_getElem? {s : GoString} {n : Nat} {b : Byte} (h : s[n]? = some b) :
    index s (n : Int) = .ok b := by
  have hlt : n < s.length := by
    by_contra hc
    rw [List.getElem?_eq_none (Nat.le_of_not_lt hc)] at h
    cases h
  have h1 : (0 : Int) ≤ n ∧ (n : Int) < len s := ⟨Int.ofNat_nonneg n, by simp [len]; exact hlt⟩
  simp [index, h1, h]

theorem slice_zero {s : GoString} {n : Nat} (h : n ≤ s.length) :
    slice s 0 (n : Int) = .ok (s.take n) := by
  have h1 : (0 : Int) ≤ 0 ∧ (0 : Int) ≤ n ∧ (n : Int) ≤ len s :=
    ⟨le_refl _, Int.ofNat_nonneg n, by simp [len]; exact h⟩
  simp [slice, h1]

theorem isPrefix_iff_take (p t : GoString) :
    p <+: t ↔ p.length ≤ t.length ∧ t.take p.length = p := by
  constructor
  · intro h
    exact ⟨h.length_le, (List.prefix_iff_eq_take.mp h).symm⟩
  · rintro ⟨_, h⟩
    exact List.prefix_iff_eq_take.mpr h.symm

/-! ## The tests of the two loops compute the rules -/

theorem callbackMatches_nil (data : GoString) : callbackMatches [] data = .ok false := by
  simp [callbackMatches, len]

theorem callbackMatches_concat (pre : GoString) (c : Byte) (data : GoString) :
    callbackMatches (pre ++ [c]) data =
      .ok (decide (c = 42 ∧ pre.length ≤ data.length ∧ data.take pre.length = pre)) := by
  have hlen : len (pre ++ [c]) - 1 = (pre.length : Int) := by simp [len]
  have hpos : len (pre ++ [c]) > 0 := by simp [len]
  have hidx : index (pre ++ [c]) (pre.length : Int) = .ok c :=
    index_of_getElem? (by simp)
  have hsl : slice (pre ++ [c]) 0 (pre.length : Int) = .ok pre := by
    rw [slice_zero (by simp)]; simp
  unfold callbackMatches
  rw [if_pos hpos, hlen, hidx]
  by_cases hc : c = 42
  · subst hc
    simp only [if_true, hsl, true_and]
    by_cases hl : pre.length ≤ data.length
    · have hge : len data ≥ len pre := by simp [len]; exact hl
      rw [if_pos hge]
      have : slice data 0 (len pre) = .ok (data.take pre.length) := slice_zero hl
      rw [this]
      simp [hl]
    · have hge : ¬ len data ≥ len pre := by simp [len]; omega
      rw [if_neg hge]
      simp [hl]
  · simp [hc]

theorem wildcardRule_nil (data : GoString) : ¬ wildcardRule [] data := by
  rintro ⟨pre, h, _⟩
  simp at h

theorem wildcardRule_concat (pre : GoString) (c : Byte) (data : GoString) :
    wildcardRule (pre ++ [c]) data ↔
      c = 42 ∧ pre.length ≤ data.length ∧ data.take pre.length = pre := by
  rw [← isPrefix_iff_take]
  constructor
  · rintro ⟨pre', h, hp⟩
    obtain ⟨h1, h2⟩ := List.append_inj' h rfl
    simp at h2
    subst h1
    exact ⟨h2, hp⟩
  · rintro ⟨hc, hp⟩
    exact ⟨pre, by rw [hc], hp⟩

/-- The test of the callback loop never panics and decides the callback
pattern rule. -/
theorem callbackMatches_eq (pattern data : GoString) :
    (wildcardRule pattern data → callbackMatches pattern data = .ok true) ∧
    (¬ wildcardRule pattern data → callbackMatches pattern data = .ok false) := by
  rcases List.eq_nil_or_concat pattern with h | ⟨pre, c, h⟩
  · subst h
    exact ⟨fun hr => absurd hr (wildcardRule_nil data), fun _ => callbackMatches_nil data⟩
  · subst h
    rw [List.concat_eq_append, callbackMatches_concat, wildcardRule_concat]
    constructor
    · intro hr; simp [hr]
    · intro hr; simp [hr]

theorem len_le_iff (a b : GoString) : len a ≤ len b ↔ a.length ≤ b.length := by
  simp [len]

theorem len_eq_iff (a b : GoString) : len a = len b ↔ a.length = b.length := by
  simp [len]

theorem commandMatches_spec (pattern text : GoString) :
    ∃ b : Bool, commandMatches pattern text = .ok b ∧ (b = true ↔ commandRule pattern text) := by
  by_cases hnil : pattern = []
  · subst hnil
    exact ⟨false, by simp [commandMatches, len], by simp [commandRule]⟩
  obtain ⟨c, hc0⟩ : ∃ c, pattern[0]? = some c :=
    ⟨_, List.getElem?_eq_getElem (List.length_pos.mpr hnil)⟩
  have hhead : pattern.head? = some c := by rw [List.head?_eq_getElem?]; exact hc0
  have hpos : len pattern > 0 := by
    have := List.length_pos.mpr hnil
    simp only [len, gt_iff_lt, Int.ofNat_pos]; exact this
  have hidx : index pattern 0 = .ok c := by
    simpa using index_of_getElem? hc0
  unfold commandMatches
  rw [if_pos hpos, hidx]
  simp only []
  by_cases hc : c = 47
  swap
  · refine ⟨false, by rw [if_neg hc], ?_⟩
    simp only [commandRule, hhead, Option.some.injEq, hc, false_and, Bool.false_eq_true]
  rw [if_pos hc]
  by_cases hl : len text ≥ len pattern
  swap
  · refine ⟨false, by rw [if_neg hl], ?_⟩
    have hl' : ¬ pattern.length ≤ text.length := fun h => hl ((len_le_iff _ _).mpr h)
    simp only [commandRule, isPrefix_iff_take, hl', false_and, and_false, Bool.false_eq_true]
  rw [if_pos hl]
  have hl' : pattern.length ≤ text.length := (len_le_iff _ _).mp hl
  have hs : slice text 0 (len pattern) = .ok (text.take pattern.length) := slice_zero hl'
  rw [hs]
  simp only []
  by_cases hh : text.take pattern.length = pattern
  swap
  · refine ⟨false, by rw [if_neg hh], ?_⟩
    simp only [commandRule, isPrefix_iff_take, hh, and_false, false_and, Bool.false_eq_true]
  rw [if_pos hh]
  have hpre : pattern <+: text := (isPrefix_iff_take _ _).mpr ⟨hl', hh⟩
  by_cases he : len text = len pattern
  · refine ⟨true, by rw [if_pos he], ?_⟩
    have he' := (len_eq_iff _ _).mp he
    simp only [commandRule, hhead, hc, hpre, he', true_or, and_self]
  rw [if_neg he]
  have he' : ¬ text.length = pattern.length := fun h => he ((len_eq_iff _ _).mpr h)
  have hlt : pattern.length < text.length := lt_of_le_of_ne hl' (Ne.symm he')
  obtain ⟨b, hb⟩ : ∃ b, text[pattern.length]? = some b := ⟨_, List.getElem?_eq_getElem hlt⟩
  have hi : index text (len pattern) = .ok b := index_of_getElem? hb
  rw [hi]
  simp only []
  by_cases h32 : b = 32
  · refine ⟨true, by rw [if_pos h32], ?_⟩
    simp only [commandRule, hhead, hc, hpre, hb, h32, true_or, or_true, and_self]
  · refine ⟨decide (b = 64), by rw [if_neg h32], ?_⟩
    simp only [commandRule, hhead, hc, hpre, hb, he', Option.some.injEq, h32, false_or,
      true_and, decide_eq_true_eq]

/-- The test of the command loop never panics and decides the command
pattern rule. -/
theorem commandMatches_eq (pattern text : GoString) :
    (commandRule pattern text → commandMatches pattern text = .ok true) ∧
    (¬ commandRule pattern text → commandMatches pattern text = .ok false) := by
  obtain ⟨b, hb, hiff⟩ := commandMatches_spec pattern text
  cases b with
  | true => exact ⟨fun _ => hb, fun hn => absurd (hiff.mp rfl) hn⟩
  | false => exact ⟨fun hr => by simpa using hiff.mpr hr, fun _ => hb⟩

/-! ## Table lookups and the loops -/

theorem lookupEntries_eq_none {V : Type} (k : GoString) (l : List (GoString × V)) :
    lookupEntries k l = none ↔ ∀ e ∈ l, e.1 ≠ k := by
  induction l with
  | nil => simp [lookupEntries]
  | cons e rest ih =>
    obtain ⟨k', v'⟩ := e
    by_cases h : k' = k
    · simp [lookupEntries, h]
    · simp [lookupEntries, h, ih]

section DispatchLemmas

variable {H : Type}

theorem callHandler_returned (run : H → Update → HandlerOutcome) (slot : Slot) (handler : H)
    (update : Update) : (callHandler run slot handler update).returned := by
  unfold callHandler Result.returned
  cases run handler update <;> rfl

theorem callHandler_invoked (run : H → Update → HandlerOutcome) (slot : Slot) (handler : H)
    (update : Update) : (callHandler run slot handler update).invoked = [(slot, handler)] := by
  unfold callHandler Result.invoked
  cases run handler update <;> rfl

theorem rangeLoop_eq_none (run : H → Update → HandlerOutcome)
    (test : GoString → Except Panic Bool) (update : Update) (entries : List (GoString × H))
    (h : ∀ e ∈ entries, test e.1 = .ok false) : rangeLoop run test update entries = none := by
  induction entries with
  | nil => rfl
  | cons e rest ih =>
    obtain ⟨k, v⟩ := e
    have hk : test k = .ok false := h (k, v) (List.mem_cons_self _ _)
    simp only [rangeLoop, hk]
    exact ih (fun e he => h e (List.mem_cons_of_mem _ he))

theorem rangeLoop_eq_some (run : H → Update → HandlerOutcome)
    (test : GoString → Except Panic Bool) (update : Update) (entries : List (GoString × H))
    (htot : ∀ e ∈ entries, ∃ b, test e.1 = .ok b) (hex : ∃ e ∈ entries, test e.1 = .ok true) :
    ∃ e ∈ entries, test e.1 = .ok true ∧
      rangeLoop run test update entries = some (callHandler run (.entry e.1) e.2 update) := by
  induction entries with
  | nil => obtain ⟨e, he, _⟩ := hex; cases he
  | cons e rest ih =>
    obtain ⟨k, v⟩ := e
    obtain ⟨b, hb⟩ := htot (k, v) (List.mem_cons_self _ _)
    cases b with
    | true =>
      exact ⟨(k, v), List.mem_cons_self _ _, hb, by simp only [rangeLoop, hb]⟩
    | false =>
      have hex' : ∃ e ∈ rest, test e.1 = .ok true := by
        obtain ⟨e, he, ht⟩ := hex
        rcases List.mem_cons.mp he with h | h
        · subst h; rw [hb] at ht; cases ht
        · exact ⟨e, h, ht⟩
      obtain ⟨e, he, ht, hr⟩ := ih (fun e he => htot e (List.mem_cons_of_mem _ he)) hex'
      exact ⟨e, List.mem_cons_of_mem _ he, ht, by simp only [rangeLoop, hb]; exact hr⟩

theorem handleUpdate_message_exact (run : H → Update → HandlerOutcome)
    (inst : BotInstance H) (update : Update) (msg : Message) (h : H)
    (hcb : update.CallbackQuery = none) (hmsg : update.Message = some msg)
    (hkey : inst.handlers.lookup msg.Text = some h) :
    handleUpdate run inst update = callHandler run (.entry msg.Text) h update := by
  simp only [handleUpdate, hcb, hmsg, hkey]

theorem handleUpdate_callback_exact (run : H → Update → HandlerOutcome)
    (inst : BotInstance H) (update : Update) (cq : CallbackQuery) (h : H)
    (hcb : update.CallbackQuery = some cq)
    (hkey : inst.callbacks.lookup cq.Data = some h) :
    handleUpdate run inst update = callHandler run (.entry cq.Data) h update := by
  simp only [handleUpdate, hcb, hkey]

/-- Without a match the dispatch goes to the default handler when there is
one, and does nothing otherwise. -/
theorem handleUpdate_no_match (run : H → Update → HandlerOutcome) (inst : BotInstance H)
    (update : Update) (hev : update.CallbackQuery ≠ none ∨ update.Message ≠ none)
    (hno : ¬ matchesEntry inst update) :
    handleUpdate run inst update =
      match inst.defaultHandler with
      | some d => callHandler run .fallback d update
      | none => .done := by
  rcases hcq : update.CallbackQuery with _ | cq
  · rcases hm : update.Message with _ | msg
    · rw [hcq, hm] at hev; simp at hev
    · simp only [matchesEntry, hcq, hm, not_exists, not_and, not_or] at hno
      have hl : inst.handlers.lookup msg.Text = none :=
        (lookupEntries_eq_none _ _).mpr (fun e he => (hno e he).1)
      have hloop := rangeLoop_eq_none run (fun pattern => commandMatches pattern msg.Text)
        update inst.handlers.entries
        (fun e he => (commandMatches_eq e.1 msg.Text).2 (hno e he).2)
      simp only [handleUpdate, hcq, hm, hl, hloop]
  · simp only [matchesEntry, hcq, not_exists, not_and, not_or] at hno
    have hl : inst.callbacks.lookup cq.Data = none :=
      (lookupEntries_eq_none _ _).mpr (fun e he => (hno e he).1)
    have hloop := rangeLoop_eq_none run (fun pattern => callbackMatches pattern cq.Data)
      update inst.callbacks.entries
      (fun e he => (callbackMatches_eq e.1 cq.Data).2 (hno e he).2)
    simp only [handleUpdate, hcq, hl, hloop]

/-- With a match the dispatch calls a handler stored under a matching key. -/
theorem handleUpdate_match (run : H → Update → HandlerOutcome) (inst : BotInstance H)
    (update : Update) (hyes : matchesEntry inst update) :
    ∃ key h, handleUpdate run inst update = callHandler run (.entry key) h update := by
  rcases hcq : update.CallbackQuery with _ | cq
  · rcases hm : update.Message with _ | msg
    · simp [matchesEntry, hcq, hm] at hyes
    · simp only [matchesEntry, hcq, hm] at hyes
      rcases hl : inst.handlers.lookup msg.Text with _ | h
      · have hex : ∃ e ∈ inst.handlers.entries, commandMatches e.1 msg.Text = .ok true := by
          obtain ⟨e, he, hor⟩ := hyes
          rcases hor with heq | hr
          · exact absurd heq ((lookupEntries_eq_none _ _).mp hl e he)
          · exact ⟨e, he, (commandMatches_eq e.1 msg.Text).1 hr⟩
        obtain ⟨e, _, _, hr⟩ := rangeLoop_eq_some run
          (fun pattern => commandMatches pattern msg.Text) update inst.handlers.entries
          (fun e _ => by
            obtain ⟨b, hb, _⟩ := commandMatches_spec e.1 msg.Text
            exact ⟨b, hb⟩) hex
        exact ⟨e.1, e.2, by simp only [handleUpdate, hcq, hm, hl, hr]⟩
      · exact ⟨msg.Text, h, handleUpdate_message_exact run inst update msg h hcq hm hl⟩
  · simp only [matchesEntry, hcq] at hyes
    rcases hl : inst.callbacks.lookup cq.Data with _ | h
    · have hex : ∃ e ∈ inst.callbacks.entries, callbackMatches e.1 cq.Data = .ok true := by
        obtain ⟨e, he, hor⟩ := hyes
        rcases hor with heq | hr
        · exact absurd heq ((lookupEntries_eq_none _ _).mp hl e he)
        · exact ⟨e, he, (callbackMatches_eq e.1 cq.Data).1 hr⟩
      obtain ⟨e, _, _, hr⟩ := rangeLoop_eq_some run
        (fun pattern => callbackMatches pattern cq.Data) update inst.callbacks.entries
        (fun e _ => by
          by_cases hw : wildcardRule e.1 cq.Data
          · exact ⟨true, (callbackMatches_eq e.1 cq.Data).1 hw⟩
          · exact ⟨false, (callbackMatches_eq e.1 cq.Data).2 hw⟩) hex
      exact ⟨e.1, e.2, by simp only [handleUpdate, hcq, hl, hr]⟩
    · exact ⟨cq.Data, h, handleUpdate_callback_exact run inst update cq h hcq hl⟩

theorem handleUpdate_returned (run : H → Update → HandlerOutcome) (inst : BotInstance H)
    (update : Update) : (handleUpdate run inst update).returned := by
  by_cases hev : update.CallbackQuery ≠ none ∨ update.Message ≠ none
  · by_cases hm : matchesEntry inst update
    · obtain ⟨key, h, hr⟩ := handleUpdate_match run inst update hm
      rw [hr]; exact callHandler_returned run _ h update
    · rw [handleUpdate_no_match run inst update hev hm]
      cases inst.defaultHandler with
      | none => rfl
      | some d => exact callHandler_returned run _ d update
  · simp only [ne_eq, not_or, not_not] at hev
    simp only [handleUpdate, hev.1, hev.2]
    rfl

theorem andThen_of_returned (r₁ r₂ : Result H) (h : r₁.returned) :
    r₁.andThen r₂ = ⟨r₁.trace ++ r₂.trace, r₂.completion⟩ := by
  unfold Result.returned at h
  simp only [Result.andThen, h]

end DispatchLemmas

/-! ## Exact matches take precedence -/

/-- C1. When the text of a message event is itself a key of the message
table, `handleUpdate` calls the handler stored under that key and nothing
else, whatever command patterns the table holds besides. -/
theorem exact_message_handler_selected {H : Type} (run : H → Update → HandlerOutcome)
    (inst : BotInstance H) (update : Update) (msg : Message) (h : H)
    (hcb : update.CallbackQuery = none) (hmsg : update.Message = some msg)
    (hkey : inst.handlers.lookup msg.Text = some h) :
    handleUpdate run inst update = callHandler run (.entry msg.Text) h update ∧
      (handleUpdate run inst update).invoked = [(.entry msg.Text, h)] := by
  have := handleUpdate_message_exact run inst update msg h hcb hmsg hkey
  exact ⟨this, by rw [this, callHandler_invoked]⟩

/-- C1 at `/start hello`: the command `/start` matches the text too, and the
handler stored under the full text is the one called. -/
theorem exact_message_handler_selected_witness :
    commandRule (ascii "/start") (ascii "/start hello") ∧
      (handleUpdate (fun _ _ => HandlerOutcome.value) exactOverCommand
        ⟨some ⟨ascii "/start hello"⟩, none⟩).invoked = [(.entry (ascii "/start hello"), 2)] :=
  ⟨by unfold commandRule; decide,
   (exact_message_handler_selected (fun _ _ => HandlerOutcome.value) exactOverCommand
      ⟨some ⟨ascii "/start hello"⟩, none⟩ ⟨ascii "/start hello"⟩ 2 rfl rfl (by decide)).2⟩

/-! ## The command boundary -/

/-- C2. In a registry whose only message entry is a pattern `P` beginning
with `/`, and which has no default handler, a message with text `T` gets
the handler of `P` called exactly when `T` starts with `P` and either ends
there or continues with a space or with `@`; otherwise nothing is called. -/
theorem command_boundary {H : Type} (run : H → Update → HandlerOutcome)
    (inst : BotInstance H) (update : Update) (msg : Message) (P : GoString) (h : H)
    (hP : P.head? = some 47)
    (hentries : inst.handlers.entries = [(P, h)])
    (hdef : inst.defaultHandler = none)
    (hcb : update.CallbackQuery = none) (hmsg : update.Message = some msg) :
    ((handleUpdate run inst update).invoked = [(.entry P, h)] ↔
      (P <+: msg.Text ∧ (msg.Text.length = P.length ∨ msg.Text[P.length]? = some 32 ∨
        msg.Text[P.length]? = some 64))) ∧
    ((handleUpdate run inst update).invoked = [] ↔
      ¬ (P <+: msg.Text ∧ (msg.Text.length = P.length ∨ msg.Text[P.length]? = some 32 ∨
        msg.Text[P.length]? = some 64))) := by
  have hrule : commandRule P msg.Text ↔
      (P <+: msg.Text ∧ (msg.Text.length = P.length ∨ msg.Text[P.length]? = some 32 ∨
        msg.Text[P.length]? = some 64)) := by
    simp only [commandRule, hP, true_and]
  rw [← hrule]
  by_cases hr : commandRule P msg.Text
  · have hinv : (handleUpdate run inst update).invoked = [(.entry P, h)] := by
      by_cases hTP : P = msg.Text
      · have hl : inst.handlers.lookup msg.Text = some h := by
          simp [GoMap.lookup, hentries, lookupEntries, hTP]
        rw [handleUpdate_message_exact run inst update msg h hcb hmsg hl, callHandler_invoked,
          hTP]
      · have hl : inst.handlers.lookup msg.Text = none := by
          simp [GoMap.lookup, hentries, lookupEntries, hTP]
        have ht := (commandMatches_eq P msg.Text).1 hr
        simp only [handleUpdate, hcb, hmsg, hl, hentries, rangeLoop, ht, callHandler_invoked]
    simp [hinv, hr]
  · have hTP : P ≠ msg.Text := by
      intro he
      apply hr
      rw [hrule, ← he]
      exact ⟨List.prefix_refl P, Or.inl rfl⟩
    have hl : inst.handlers.lookup msg.Text = none := by
      simp [GoMap.lookup, hentries, lookupEntries, hTP]
    have ht := (commandMatches_eq P msg.Text).2 hr
    have hinv : (handleUpdate run inst update).invoked = [] := by
      simp only [handleUpdate, hcb, hmsg, hl, hentries, rangeLoop, ht, hdef]
      rfl
    simp [hinv, hr]

/-- C2 at `/start`: the handler is called for `/start`, `/start@mybot` and
`/start hello`, and is not called for `/startup`. -/
theorem command_boundary_witness :
    (ascii "/start").head? = some 47 ∧
    (handleUpdate (fun _ _ => HandlerOutcome.value) startOnly
      ⟨some ⟨ascii "/start"⟩, none⟩).invoked = [(.entry (ascii "/start"), 7)] ∧
    (handleUpdate (fun _ _ => HandlerOutcome.value) startOnly
      ⟨some ⟨ascii "/start@mybot"⟩, none⟩).invoked = [(.entry (ascii "/start"), 7)] ∧
    (handleUpdate (fun _ _ => HandlerOutcome.value) startOnly
      ⟨some ⟨ascii "/start hello"⟩, none⟩).invoked = [(.entry (ascii "/start"), 7)] ∧
    (handleUpdate (fun _ _ => HandlerOutcome.value) startOnly
      ⟨some ⟨ascii "/startup"⟩, none⟩).invoked = [] :=
  ⟨by decide,
   (command_boundary (fun _ _ => HandlerOutcome.value) startOnly
      ⟨some ⟨ascii "/start"⟩, none⟩ ⟨ascii "/start"⟩ (ascii "/start") 7
      (by decide) rfl rfl rfl rfl).1.mpr (by decide),
   (command_boundary (fun _ _ => HandlerOutcome.value) startOnly
      ⟨some ⟨ascii "/start@mybot"⟩, none⟩ ⟨ascii "/start@mybot"⟩ (ascii "/start") 7
      (by decide) rfl rfl rfl rfl).1.mpr (by decide),
   (command_boundary (fun _ _ => HandlerOutcome.value) startOnly
      ⟨some ⟨ascii "/start hello"⟩, none⟩ ⟨ascii "/start hello"⟩ (ascii "/start") 7
      (by decide) rfl rfl rfl rfl).1.mpr (by decide),
   (command_boundary (fun _ _ => HandlerOutcome.value) startOnly
      ⟨some ⟨ascii "/startup"⟩, none⟩ ⟨ascii "/startup"⟩ (ascii "/start") 7
      (by decide) rfl rfl rfl rfl).2.mpr (by decide)⟩

/-! ## The callback wildcard -/

/-- C3. In a registry whose only callback entry is `pre ++ "*"` (with `pre`
possibly empty, the pattern `*`), and which has no default handler, a
callback with data `D` gets the handler of that entry called exactly when
`D` starts with `pre`; otherwise nothing is called. -/
theorem callback_wildcard {H : Type} (run : H → Update → HandlerOutcome)
    (inst : BotInstance H) (update : Update) (cq : CallbackQuery) (pre : GoString) (h : H)
    (hentries : inst.callbacks.entries = [(pre ++ [42], h)])
    (hdef : inst.defaultHandler = none)
    (hcb : update.CallbackQuery = some cq) :
    ((handleUpdate run inst update).invoked = [(.entry (pre ++ [42]), h)] ↔ pre <+: cq.Data) ∧
    ((handleUpdate run inst update).invoked = [] ↔ ¬ pre <+: cq.Data) := by
  have hrule : wildcardRule (pre ++ [42]) cq.Data ↔ pre <+: cq.Data := by
    rw [wildcardRule_concat, isPrefix_iff_take]; simp
  rw [← hrule]
  by_cases hr : wildcardRule (pre ++ [42]) cq.Data
  · have hinv : (handleUpdate run inst update).invoked = [(.entry (pre ++ [42]), h)] := by
      by_cases hTP : pre ++ [42] = cq.Data
      · have hl : inst.callbacks.lookup cq.Data = some h := by
          simp [GoMap.lookup, hentries, lookupEntries, hTP]
        rw [handleUpdate_callback_exact run inst update cq h hcb hl, callHandler_invoked, hTP]
      · have hl : inst.callbacks.lookup cq.Data = none := by
          simp [GoMap.lookup, hentries, lookupEntries, hTP]
        have ht := (callbackMatches_eq (pre ++ [42]) cq.Data).1 hr
        simp only [handleUpdate, hcb, hl, hentries, rangeLoop, ht, callHandler_invoked]
    simp [hinv, hr]
  · have hTP : pre ++ [42] ≠ cq.Data := by
      intro he
      apply hr
      rw [hrule, ← he]
      exact List.prefix_append pre [42]
    have hl : inst.callbacks.lookup cq.Data = none := by
      simp [GoMap.lookup, hentries, lookupEntries, hTP]
    have ht := (callbackMatches_eq (pre ++ [42]) cq.Data).2 hr
    have hinv : (handleUpdate run inst update).invoked = [] := by
      simp only [handleUpdate, hcb, hl, hentries, rangeLoop, ht, hdef]
      rfl
    simp [hinv, hr]

/-- C3 at `foo*`: the handler is called for `foo` and `foobar`, and is not
called for `barfoo`. -/
theorem callback_wildcard_witness :
    (handleUpdate (fun _ _ => HandlerOutcome.value) fooStarOnly
      ⟨none, some ⟨ascii "foo"⟩⟩).invoked = [(.entry (ascii "foo" ++ [42]), 5)] ∧
    (handleUpdate (fun _ _ => HandlerOutcome.value) fooStarOnly
      ⟨none, some ⟨ascii "foobar"⟩⟩).invoked = [(.entry (ascii "foo" ++ [42]), 5)] ∧
    (handleUpdate (fun _ _ => HandlerOutcome.value) fooStarOnly
      ⟨none, some ⟨ascii "barfoo"⟩⟩).invoked = [] :=
  ⟨(callback_wildcard (fun _ _ => HandlerOutcome.value) fooStarOnly
      ⟨none, some ⟨ascii "foo"⟩⟩ ⟨ascii "foo"⟩ (ascii "foo") 5
      (by decide) rfl rfl).1.mpr (by decide),
   (callback_wildcard (fun _ _ => HandlerOutcome.value) fooStarOnly
      ⟨none, some ⟨ascii "foobar"⟩⟩ ⟨ascii "foobar"⟩ (ascii "foo") 5
      (by decide) rfl rfl).1.mpr (by decide),
   (callback_wildcard (fun _ _ => HandlerOutcome.value) fooStarOnly
      ⟨none, some ⟨ascii "barfoo"⟩⟩ ⟨ascii "barfoo"⟩ (ascii "foo") 5
      (by decide) rfl rfl).2.mpr (by decide)⟩

/-- C4. When the data of a callback event is itself a key of the callback
table, `handleUpdate` calls the handler stored under that key and nothing
else, whatever wildcard patterns the table holds besides. -/
theorem exact_callback_handler_selected {H : Type} (run : H → Update → HandlerOutcome)
    (inst : BotInstance H) (update : Update) (cq : CallbackQuery) (h : H)
    (hcb : update.CallbackQuery = some cq)
    (hkey : inst.callbacks.lookup cq.Data = some h) :
    handleUpdate run inst update = callHandler run (.entry cq.Data) h update ∧
      (handleUpdate run inst update).invoked = [(.entry cq.Data, h)] := by
  have := handleUpdate_callback_exact run inst update cq h hcb hkey
  exact ⟨this, by rw [this, callHandler_invoked]⟩

/-- C4 at `buy:42`: the wildcard `buy*` matches the data too, and the handler
stored under the full data is the one called. -/
theorem exact_callback_handler_selected_witness :
    wildcardRule (ascii "buy*") (ascii "buy:42") ∧
      (handleUpdate (fun _ _ => HandlerOutcome.value) exactOverWildcard
        ⟨none, some ⟨ascii "buy:42"⟩⟩).invoked = [(.entry (ascii "buy:42"), 2)] :=
  ⟨⟨ascii "buy", by decide, by decide⟩,
   (exact_callback_handler_selected (fun _ _ => HandlerOutcome.value) exactOverWildcard
      ⟨none, some ⟨ascii "buy:42"⟩⟩ ⟨ascii "buy:42"⟩ 2 rfl (by decide)).2⟩

/-! ## No match: drop, or the default handler -/

/-- C5. Without a default handler, an event (message or callback) that
matches no entry of its table makes `handleUpdate` return normally with no
handler called and nothing printed. -/
theorem unmatched_event_dropped {H : Type} (run : H → Update → HandlerOutcome)
    (inst : BotInstance H) (update : Update)
    (hev : update.CallbackQuery ≠ none ∨ update.Message ≠ none)
    (hdef : inst.defaultHandler = none) (hno : ¬ matchesEntry inst update) :
    (handleUpdate run inst update).returned ∧ (handleUpdate run inst update).invoked = [] ∧
      (handleUpdate run inst update).trace = [] := by
  rw [handleUpdate_no_match run inst update hev hno, hdef]
  exact ⟨rfl, rfl, rfl⟩

/-- C5 at the registry `/start` and the text `/startup`, and at the registry
`foo*` and the data `barfoo`. -/
theorem unmatched_event_dropped_witness :
    ((handleUpdate alwaysPanics startOnly ⟨some ⟨ascii "/startup"⟩, none⟩).returned ∧
      (handleUpdate alwaysPanics startOnly ⟨some ⟨ascii "/startup"⟩, none⟩).invoked = [] ∧
      (handleUpdate alwaysPanics startOnly ⟨some ⟨ascii "/startup"⟩, none⟩).trace = []) ∧
    ((handleUpdate alwaysPanics fooStarOnly ⟨none, some ⟨ascii "barfoo"⟩⟩).returned ∧
      (handleUpdate alwaysPanics fooStarOnly ⟨none, some ⟨ascii "barfoo"⟩⟩).invoked = [] ∧
      (handleUpdate alwaysPanics fooStarOnly ⟨none, some ⟨ascii "barfoo"⟩⟩).trace = []) :=
  ⟨unmatched_event_dropped alwaysPanics startOnly ⟨some ⟨ascii "/startup"⟩, none⟩
      (Or.inr (by decide)) rfl (by
        simp only [matchesEntry, startOnly, List.mem_singleton, exists_eq_left, not_or]
        exact ⟨by decide, by unfold commandRule; decide⟩),
   unmatched_event_dropped alwaysPanics fooStarOnly ⟨none, some ⟨ascii "barfoo"⟩⟩
      (Or.inl (by decide)) rfl (by
        simp only [matchesEntry, fooStarOnly, List.mem_singleton, exists_eq_left, not_or]
        refine ⟨by decide, ?_⟩
        rw [show ascii "foo*" = ascii "foo" ++ [42] by decide, wildcardRule_concat]
        decide)⟩

/-- C6. With a default handler `d`, an event (message or callback) gets the
default handler called exactly when it matches no entry of its table, and
then `d` is called once and nothing else is. -/
theorem default_iff_no_match {H : Type} (run : H → Update → HandlerOutcome)
    (inst : BotInstance H) (update : Update) (d : H)
    (hev : update.CallbackQuery ≠ none ∨ update.Message ≠ none)
    (hdef : inst.defaultHandler = some d) :
    ((Slot.fallback, d) ∈ (handleUpdate run inst update).invoked ↔ ¬ matchesEntry inst update) ∧
    (¬ matchesEntry inst update → (handleUpdate run inst update).invoked = [(.fallback, d)]) := by
  by_cases hm : matchesEntry inst update
  · obtain ⟨key, h, hr⟩ := handleUpdate_match run inst update hm
    simp [hr, callHandler_invoked, hm]
  · have hr := handleUpdate_no_match run inst update hev hm
    rw [hdef] at hr
    simp [hr, callHandler_invoked, hm]

/-- C6 at the registry `exactOverCommand` (default handler 3): the text `hello` matches
no entry and goes to the default handler, once; the text `/start` matches and
does not. -/
theorem default_iff_no_match_witness :
    (handleUpdate alwaysPanics exactOverCommand ⟨some ⟨ascii "hello"⟩, none⟩).invoked
        = [(.fallback, 3)] ∧
    (Slot.fallback, 3) ∉
      (handleUpdate alwaysPanics exactOverCommand ⟨some ⟨ascii "/start"⟩, none⟩).invoked :=
  ⟨(default_iff_no_match alwaysPanics exactOverCommand ⟨some ⟨ascii "hello"⟩, none⟩ 3
      (Or.inr (by decide)) rfl).2 (by
        simp only [matchesEntry, exactOverCommand, List.mem_cons, List.mem_singleton,
          List.not_mem_nil, or_false, not_exists, not_and, not_or]
        rintro e (rfl | rfl) <;> exact ⟨by decide, by unfold commandRule; decide⟩),
   fun hin => ((default_iff_no_match alwaysPanics exactOverCommand
      ⟨some ⟨ascii "/start"⟩, none⟩ 3 (Or.inr (by decide)) rfl).1.mp hin)
        ⟨(ascii "/start", 1), by simp [exactOverCommand], Or.inl rfl⟩⟩

/-! ## Failure isolation -/

/-- C7. `callHandler` returns normally whatever the handler does (value,
error or panic), and so does `handleUpdate`; hence in the sequence of two
dispatches on one registry the second dispatch runs and has the effects it
has on its own, also when the handler of the first one failed. -/
theorem failure_isolation {H : Type} (run : H → Update → HandlerOutcome)
    (inst : BotInstance H) (slot : Slot) (handler : H) (e₁ e₂ : Update) :
    (callHandler run slot handler e₁).returned ∧
    (handleUpdate run inst e₁).returned ∧
    ((handleUpdate run inst e₁).andThen (handleUpdate run inst e₂)).trace =
      (handleUpdate run inst e₁).trace ++ (handleUpdate run inst e₂).trace ∧
    ((handleUpdate run inst e₁).andThen (handleUpdate run inst e₂)).invoked =
      (handleUpdate run inst e₁).invoked ++ (handleUpdate run inst e₂).invoked ∧
    ((handleUpdate run inst e₁).andThen (handleUpdate run inst e₂)).returned := by
  have h₁ := handleUpdate_returned run inst e₁
  have h₂ := handleUpdate_returned run inst e₂
  rw [andThen_of_returned _ _ h₁]
  refine ⟨callHandler_returned run slot handler e₁, h₁, rfl, ?_, h₂⟩
  simp only [Result.invoked, List.filterMap_append]

/-- An instance of C7's setting, evaluated: under `alwaysPanics` the dispatch
of `/start` calls handler 1, which panics; the panic is printed, and the
dispatch of `hello` that follows reaches the default handler as usual. -/
theorem dispatch_after_panic_example :
    (handleUpdate alwaysPanics exactOverCommand ⟨some ⟨ascii "/start"⟩, none⟩).andThen
      (handleUpdate alwaysPanics exactOverCommand ⟨some ⟨ascii "hello"⟩, none⟩) =
    ⟨[.invoke (.entry (ascii "/start")) 1 ⟨some ⟨ascii "/start"⟩, none⟩,
      .print (.raised (ascii "boom")),
      .invoke .fallback 3 ⟨some ⟨ascii "hello"⟩, none⟩,
      .print (.raised (ascii "boom"))], .ok ()⟩ := by
  decide

/-! ## The instance table -/

theorem lookupEntries_setEntries {V : Type} (k k' : GoString) (v : V)
    (l : List (GoString × V)) :
    lookupEntries k (setEntries k' v l) = if k' = k then some v else lookupEntries k l := by
  induction l with
  | nil => simp [setEntries, lookupEntries]
  | cons e rest ih =>
    obtain ⟨k₀, v₀⟩ := e
    by_cases h₀ : k₀ = k'
    · subst h₀
      by_cases hk : k₀ = k <;> simp [setEntries, lookupEntries, hk]
    · by_cases hk : k₀ = k
      · subst hk
        have : ¬ k' = k₀ := fun e => h₀ e.symm
        simp [setEntries, lookupEntries, h₀, this]
      · simp [setEntries, lookupEntries, h₀, hk, ih]

theorem lookupEntries_deleteEntries {V : Type} (k k' : GoString) (l : List (GoString × V)) :
    lookupEntries k (deleteEntries k' l) = if k' = k then none else lookupEntries k l := by
  induction l with
  | nil => simp [deleteEntries, lookupEntries]
  | cons e rest ih =>
    obtain ⟨k₀, v₀⟩ := e
    by_cases h₀ : k₀ = k'
    · subst h₀
      by_cases hk : k₀ = k
      · subst hk; simp [deleteEntries, ih]
      · simp [deleteEntries, lookupEntries, hk, ih]
    · by_cases hk : k₀ = k
      · subst hk
        have : ¬ k' = k₀ := fun e => h₀ e.symm
        simp [deleteEntries, lookupEntries, h₀, this]
      · simp [deleteEntries, lookupEntries, h₀, hk, ih]

theorem GoMap.lookup_set {V : Type} (m : GoMap V) (k k' : GoString) (v : V) :
    (m.set k' v).lookup k = if k' = k then some v else m.lookup k :=
  lookupEntries_setEntries k k' v m.entries

theorem GoMap.lookup_delete {V : Type} (m : GoMap V) (k k' : GoString) :
    (m.delete k').lookup k = if k' = k then none else m.lookup k :=
  lookupEntries_deleteEntries k k' m.entries

theorem length_modifyAt {α : Type} (f : α → α) (n : Nat) (l : List α) :
    (modifyAt f n l).length = l.length := by
  induction l generalizing n with
  | nil => cases n <;> rfl
  | cons x xs ih =>
    cases n with
    | zero => rfl
    | succ n => simp [modifyAt, ih]

theorem getElem?_modifyAt {α : Type} (f : α → α) (n m : Nat) (l : List α) :
    (modifyAt f n l)[m]? = if m = n then (l[m]?).map f else l[m]? := by
  induction l generalizing n m with
  | nil => cases n <;> simp [modifyAt]
  | cons x xs ih =>
    cases n with
    | zero => cases m <;> simp [modifyAt]
    | succ n =>
      cases m with
      | zero => simp [modifyAt]
      | succ m => simp [modifyAt, ih]

theorem modifyAt_length_append {α : Type} (f : α → α) (l : List α) (x : α) :
    modifyAt f l.length (l ++ [x]) = l ++ [f x] := by
  induction l with
  | nil => rfl
  | cons y ys ih => simp [modifyAt, ih]

theorem modifyAt_append_of_eq {α : Type} (f : α → α) (l : List α) (x : α) (n : Nat)
    (h : l.length = n) : modifyAt f n (l ++ [x]) = l ++ [f x] := by
  subst h; exact modifyAt_length_append f l x

section PluginLemmas

variable {H : Type}

theorem length_retiredHeap (p : TelegramPlugin H) (token : GoString) :
    (retiredHeap p token).length = p.heap.length := by
  unfold retiredHeap
  cases p.bots.lookup token with
  | none => rfl
  | some a => exact length_modifyAt _ _ _

theorem runSetup_cancelled (calls : List (Registration H)) (inst : BotInstance H) :
    (runSetup calls inst).cancelled = inst.cancelled := by
  induction calls generalizing inst with
  | nil => rfl
  | cons c rest ih =>
    simp only [runSetup, List.foldl_cons] at ih ⊢
    rw [ih]
    cases c <;> rfl

theorem runSetup_handlers (calls : List (Registration H)) (inst : BotInstance H)
    (k : GoString) :
    (runSetup calls inst).handlers.lookup k =
      match lastRegistered (asHandle k) calls with
      | some h => some h
      | none => inst.handlers.lookup k := by
  induction calls generalizing inst with
  | nil => rfl
  | cons c rest ih =>
    have hstep : runSetup (c :: rest) inst = runSetup rest (register inst c) := rfl
    rw [hstep, ih]
    simp only [lastRegistered]
    cases lastRegistered (asHandle k) rest with
    | some h => rfl
    | none =>
      cases c with
      | handle pattern handler =>
        simp only [register, createHandle, asHandle, GoMap.lookup_set]
        split <;> rfl
      | handleCallback data handler => rfl
      | handleDefault handler => rfl

theorem runSetup_callbacks (calls : List (Registration H)) (inst : BotInstance H)
    (k : GoString) :
    (runSetup calls inst).callbacks.lookup k =
      match lastRegistered (asCallback k) calls with
      | some h => some h
      | none => inst.callbacks.lookup k := by
  induction calls generalizing inst with
  | nil => rfl
  | cons c rest ih =>
    have hstep : runSetup (c :: rest) inst = runSetup rest (register inst c) := rfl
    rw [hstep, ih]
    simp only [lastRegistered]
    cases lastRegistered (asCallback k) rest with
    | some h => rfl
    | none =>
      cases c with
      | handle pattern handler => rfl
      | handleCallback data handler =>
        simp only [register, createHandleCallback, asCallback, GoMap.lookup_set]
        split <;> rfl
      | handleDefault handler => rfl

theorem runSetup_defaultHandler (calls : List (Registration H)) (inst : BotInstance H) :
    (runSetup calls inst).defaultHandler =
      match lastRegistered asDefault calls with
      | some h => some h
      | none => inst.defaultHandler := by
  induction calls generalizing inst with
  | nil => rfl
  | cons c rest ih =>
    have hstep : runSetup (c :: rest) inst = runSetup rest (register inst c) := rfl
    rw [hstep, ih]
    simp only [lastRegistered]
    cases lastRegistered asDefault rest with
    | some h => rfl
    | none => cases c <;> rfl

theorem startBot_ok (p : TelegramPlugin H) (token : GoString)
    (callback : Option (SetupCallback H)) (hs : succeeds callback) :
    p.startBot token true callback =
      (⟨retiredHeap p token ++ [runSetup (callsOf callback) newInstance],
        p.bots.set token p.heap.length⟩, .ok ()) := by
  have hlen := length_retiredHeap p token
  unfold retiredHeap at hlen
  unfold TelegramPlugin.startBot retiredHeap
  cases hl : p.bots.lookup token with
  | none =>
    cases callback with
    | none => simp [callsOf, runSetup]
    | some cb =>
      have hf : cb.fails = false := hs
      simp [callsOf, hf, modifyAt_length_append]
  | some a =>
    rw [hl] at hlen
    simp only at hlen
    cases callback with
    | none => simp [callsOf, runSetup, TelegramPlugin.cancel, hlen]
    | some cb =>
      have hf : cb.fails = false := hs
      simp [callsOf, hf, TelegramPlugin.cancel, hlen, modifyAt_append_of_eq _ _ _ _ hlen]

theorem startBot_setup_failed (p : TelegramPlugin H) (token : GoString) (cb : SetupCallback H)
    (hf : cb.fails = true) :
    p.startBot token true (some cb) =
      (⟨retiredHeap p token ++ [{ runSetup cb.calls newInstance with cancelled := true }],
        (p.bots.set token p.heap.length).delete token⟩, .error .setupFailed) := by
  have hlen := length_retiredHeap p token
  unfold retiredHeap at hlen
  unfold TelegramPlugin.startBot retiredHeap
  cases hl : p.bots.lookup token with
  | none =>
    simp [hf, TelegramPlugin.cancel, modifyAt_length_append]
  | some a =>
    rw [hl] at hlen
    simp only at hlen
    simp [hf, TelegramPlugin.cancel, hlen, modifyAt_append_of_eq _ _ _ _ hlen]

theorem startBot_create_failed (p : TelegramPlugin H) (token : GoString)
    (callback : Option (SetupCallback H)) :
    p.startBot token false callback =
      (⟨retiredHeap p token ++ [{ (newInstance : BotInstance H) with cancelled := true }],
        p.bots⟩, .error .createFailed) := by
  unfold TelegramPlugin.startBot retiredHeap
  cases hl : p.bots.lookup token with
  | none => simp [TelegramPlugin.cancel, modifyAt_length_append]
  | some a => simp [TelegramPlugin.cancel, modifyAt_length_append]

theorem startBot_ok_iff (p : TelegramPlugin H) (token : GoString) (created : Bool)
    (callback : Option (SetupCallback H)) :
    (p.startBot token created callback).2 = .ok () ↔ created = true ∧ succeeds callback := by
  cases created with
  | false => simp [startBot_create_failed]
  | true =>
    cases callback with
    | none => simp [startBot_ok, succeeds]
    | some cb =>
      cases hf : cb.fails with
      | true => simp [startBot_setup_failed p token cb hf, succeeds, hf]
      | false =>
        have hs : succeeds (some cb) := hf
        simp [startBot_ok p token (some cb) hs, succeeds, hf]

end PluginLemmas

/-! ## Replacing an instance -/

/-- C8. After two successful calls `startBot(token, setup1)` and
`startBot(token, setup2)` the table maps `token` to the second instance,
the first instance is cancelled, and the second instance is live and holds
exactly what `setup2` registered on an empty registry: every lookup in it
gives the last registration `setup2` made for that key, and nothing of
`setup1`. -/
theorem replace_installs_second_instance {H : Type} (p : TelegramPlugin H) (token : GoString)
    (c₁ c₂ : Bool) (cb₁ cb₂ : Option (SetupCallback H))
    (h₁ : (p.startBot token c₁ cb₁).2 = .ok ())
    (h₂ : ((p.startBot token c₁ cb₁).1.startBot token c₂ cb₂).2 = .ok ()) :
    let p₁ := (p.startBot token c₁ cb₁).1
    let p₂ := (p₁.startBot token c₂ cb₂).1
    let first := p.heap.length
    let second := p₁.heap.length
    p₁.bots.lookup token = some first ∧
    p₁.heap[first]? = some (runSetup (callsOf cb₁) newInstance) ∧
    p₂.bots.lookup token = some second ∧ second ≠ first ∧
    p₂.heap[first]? = some { runSetup (callsOf cb₁) newInstance with cancelled := true } ∧
    p₂.heap[second]? = some (runSetup (callsOf cb₂) newInstance) ∧
    (runSetup (callsOf cb₂) (newInstance : BotInstance H)).cancelled = false ∧
    (∀ k, (runSetup (callsOf cb₂) (newInstance : BotInstance H)).handlers.lookup k =
      lastRegistered (asHandle k) (callsOf cb₂)) ∧
    (∀ k, (runSetup (callsOf cb₂) (newInstance : BotInstance H)).callbacks.lookup k =
      lastRegistered (asCallback k) (callsOf cb₂)) ∧
    (runSetup (callsOf cb₂) (newInstance : BotInstance H)).defaultHandler =
      lastRegistered asDefault (callsOf cb₂) := by
  intro p₁ p₂ first second
  obtain ⟨hc₁, hs₁⟩ := (startBot_ok_iff p token c₁ cb₁).mp h₁
  obtain ⟨hc₂, hs₂⟩ := (startBot_ok_iff _ token c₂ cb₂).mp h₂
  subst hc₁ hc₂
  have e₁ : p₁ = ⟨retiredHeap p token ++ [runSetup (callsOf cb₁) newInstance],
      p.bots.set token p.heap.length⟩ := by
    show (p.startBot token true cb₁).1 = _
    rw [startBot_ok p token cb₁ hs₁]
  have hl₁ : p₁.bots.lookup token = some first := by
    rw [e₁]; simp [GoMap.lookup_set, first]
  have hlen₁ : second = first + 1 := by
    show p₁.heap.length = p.heap.length + 1
    rw [e₁]; simp [length_retiredHeap]
  have hget₁ : p₁.heap[first]? = some (runSetup (callsOf cb₁) newInstance) := by
    rw [e₁]
    show (retiredHeap p token ++ [_])[p.heap.length]? = _
    rw [← length_retiredHeap p token]; simp
  have hret : retiredHeap p₁ token =
      modifyAt (fun inst => { inst with cancelled := true }) first p₁.heap := by
    unfold retiredHeap; rw [hl₁]
  have e₂ : p₂ = ⟨retiredHeap p₁ token ++ [runSetup (callsOf cb₂) newInstance],
      p₁.bots.set token p₁.heap.length⟩ := by
    show (p₁.startBot token true cb₂).1 = _
    rw [startBot_ok p₁ token cb₂ hs₂]
  have hlt : first < (retiredHeap p₁ token).length := by
    rw [length_retiredHeap]; show first < second; omega
  refine ⟨hl₁, hget₁, ?_, by omega, ?_, ?_, ?_, ?_, ?_, ?_⟩
  · rw [e₂]; simp [GoMap.lookup_set, second]
  · rw [e₂]
    show (retiredHeap p₁ token ++ [_])[first]? = _
    rw [List.getElem?_append_left hlt, hret, getElem?_modifyAt, if_pos rfl, hget₁]
    rfl
  · rw [e₂]
    show (retiredHeap p₁ token ++ [_])[p₁.heap.length]? = _
    rw [← length_retiredHeap p₁ token]; simp
  · rw [runSetup_cancelled]; rfl
  · intro k
    rw [runSetup_handlers]
    cases lastRegistered (asHandle k) (callsOf cb₂) <;> rfl
  · intro k
    rw [runSetup_callbacks]
    cases lastRegistered (asCallback k) (callsOf cb₂) <;> rfl
  · rw [runSetup_defaultHandler]
    cases lastRegistered asDefault (callsOf cb₂) <;> rfl

/-- C8 at the token `tok`, started with `setupA` and then with `setupB`:
the table points to the second instance (address 1), the first one
(address 0) is cancelled, and the second one has no message handler for
`/start` and no default handler. -/
theorem replace_installs_second_instance_witness :
    ((initial.startBot (ascii "tok") true setupA).1.startBot (ascii "tok") true setupB).1.bots.lookup
        (ascii "tok") = some 1 ∧
    ((initial.startBot (ascii "tok") true setupA).1.startBot (ascii "tok") true setupB).1.heap[0]?
        = some { runSetup (callsOf setupA) newInstance with cancelled := true } ∧
    (runSetup (callsOf setupB) (newInstance : BotInstance Nat)).handlers.lookup (ascii "/start")
        = none ∧
    (runSetup (callsOf setupB) (newInstance : BotInstance Nat)).defaultHandler = none :=
  ⟨(replace_installs_second_instance initial (ascii "tok") true true setupA setupB
      (by decide) (by decide)).2.2.1,
   (replace_installs_second_instance initial (ascii "tok") true true setupA setupB
      (by decide) (by decide)).2.2.2.2.1,
   (replace_installs_second_instance initial (ascii "tok") true true setupA setupB
      (by decide) (by decide)).2.2.2.2.2.2.2.1 (ascii "/start"),
   (replace_installs_second_instance initial (ascii "tok") true true setupA setupB
      (by decide) (by decide)).2.2.2.2.2.2.2.2.2⟩

/-! ## Failures of `startBot` -/

/-- C9. When the setup callback returns an error, `startBot` returns an
error, the instance it built is cancelled, the table has no entry for the
token, and the entry of every other token is as before. -/
theorem setup_failure_discards_instance {H : Type} (p : TelegramPlugin H) (token : GoString)
    (cb : SetupCallback H) (hf : cb.fails = true) :
    (p.startBot token true (some cb)).2 = .error .setupFailed ∧
    (∃ inst, (p.startBot token true (some cb)).1.heap[p.heap.length]? = some inst ∧
      inst.cancelled = true) ∧
    (p.startBot token true (some cb)).1.bots.lookup token = none ∧
    (∀ t, t ≠ token → (p.startBot token true (some cb)).1.bots.lookup t = p.bots.lookup t) := by
  rw [startBot_setup_failed p token cb hf]
  refine ⟨rfl, ⟨{ runSetup cb.calls newInstance with cancelled := true }, ?_, rfl⟩, ?_, ?_⟩
  · show (retiredHeap p token ++ [_])[p.heap.length]? = _
    rw [← length_retiredHeap p token]; simp
  · simp [GoMap.lookup_delete]
  · intro t ht
    have ht' : ¬ token = t := fun e => ht e.symm
    simp [GoMap.lookup_delete, GoMap.lookup_set, ht']

/-- C9 at a table that holds an instance for `other` and one for `tok`:
the failed restart of `tok` leaves no entry for `tok` and keeps `other`. -/
theorem setup_failure_discards_instance_witness :
    setupFailing.fails = true ∧
    (((initial.startBot (ascii "other") true setupA).1.startBot (ascii "tok") true setupB).1.startBot
      (ascii "tok") true (some setupFailing)).2 = .error .setupFailed ∧
    (((initial.startBot (ascii "other") true setupA).1.startBot (ascii "tok") true setupB).1.startBot
      (ascii "tok") true (some setupFailing)).1.bots.lookup (ascii "tok") = none ∧
    (((initial.startBot (ascii "other") true setupA).1.startBot (ascii "tok") true setupB).1.startBot
      (ascii "tok") true (some setupFailing)).1.bots.lookup (ascii "other") = some 0 :=
  ⟨rfl,
   (setup_failure_discards_instance
      ((initial.startBot (ascii "other") true setupA).1.startBot (ascii "tok") true setupB).1
      (ascii "tok") setupFailing rfl).1,
   (setup_failure_discards_instance
      ((initial.startBot (ascii "other") true setupA).1.startBot (ascii "tok") true setupB).1
      (ascii "tok") setupFailing rfl).2.2.1,
   ((setup_failure_discards_instance
      ((initial.startBot (ascii "other") true setupA).1.startBot (ascii "tok") true setupB).1
      (ascii "tok") setupFailing rfl).2.2.2 (ascii "other") (by decide)).trans (by decide)⟩

/-- C10, the code at the failing input.  The table holds a live instance for
`tok` (address 0); `startBot(tok)` is called again and `bot.New` fails.  The
call returns the error, the old instance is cancelled, and the table still
maps `tok` to the old instance. -/
theorem create_failure_keeps_old_entry :
    (initial.startBot (ascii "tok") true setupA).1.bots.lookup (ascii "tok") = some 0 ∧
    ((initial.startBot (ascii "tok") true setupA).1.startBot (ascii "tok") false setupB).2
      = .error .createFailed ∧
    ((initial.startBot (ascii "tok") true setupA).1.startBot (ascii "tok") false setupB).1.bots.lookup
      (ascii "tok") = some 0 ∧
    (((initial.startBot (ascii "tok") true setupA).1.startBot (ascii "tok") false setupB).1.heap[0]?).map
      (fun inst => inst.cancelled) = some true := by
  decide

/-- The sibling failure path: when `bot.New` succeeds and the setup callback
fails, the entry is deleted. -/
theorem setup_failure_deletes_old_entry :
    ((initial.startBot (ascii "tok") true setupA).1.startBot (ascii "tok") true
      (some setupFailing)).1.bots.lookup (ascii "tok") = none := by
  decide

/-! ## Stopping instances -/

theorem lookupEntries_mem {V : Type} {k : GoString} {v : V} {l : List (GoString × V)}
    (h : lookupEntries k l = some v) : (k, v) ∈ l := by
  induction l with
  | nil => simp [lookupEntries] at h
  | cons e rest ih =>
    obtain ⟨k', v'⟩ := e
    by_cases hk : k' = k
    · simp only [lookupEntries, hk, if_true, Option.some.injEq] at h
      simp [hk, h]
    · simp only [lookupEntries, hk, if_false] at h
      exact List.mem_cons_of_mem _ (ih h)

theorem mem_keys_deleteEntries {V : Type} (k x : GoString) (l : List (GoString × V)) :
    x ∈ (deleteEntries k l).map Prod.fst ↔ x ∈ l.map Prod.fst ∧ x ≠ k := by
  induction l with
  | nil => simp [deleteEntries]
  | cons e rest ih =>
    obtain ⟨k', v'⟩ := e
    by_cases h : k' = k
    · subst h
      simp only [deleteEntries, if_true, ih, List.map_cons, List.mem_cons]
      constructor
      · rintro ⟨h1, h2⟩; exact ⟨Or.inr h1, h2⟩
      · rintro ⟨h1 | h1, h2⟩
        · exact absurd h1 h2
        · exact ⟨h1, h2⟩
    · simp only [deleteEntries, h, if_false, List.map_cons, List.mem_cons, ih]
      constructor
      · rintro (h1 | ⟨h1, h2⟩)
        · exact ⟨Or.inl h1, by rw [h1]; exact h⟩
        · exact ⟨Or.inr h1, h2⟩
      · rintro ⟨h1 | h1, h2⟩
        · exact Or.inl h1
        · exact Or.inr ⟨h1, h2⟩

theorem foldl_deleteEntries_nil {V : Type} (l es : List (GoString × V))
    (h : ∀ x ∈ es.map Prod.fst, x ∈ l.map Prod.fst) :
    l.foldl (fun acc e => deleteEntries e.1 acc) es = [] := by
  induction l generalizing es with
  | nil =>
    cases es with
    | nil => rfl
    | cons e rest => exact absurd (h e.1 (by simp)) (by simp)
  | cons e rest ih =>
    simp only [List.foldl_cons]
    apply ih
    intro x hx
    obtain ⟨hx1, hx2⟩ := (mem_keys_deleteEntries e.1 x es).mp hx
    have := h x hx1
    simp only [List.map_cons, List.mem_cons] at this
    rcases this with h1 | h1
    · exact absurd h1 hx2
    · exact h1

section StopLemmas

variable {H : Type}

theorem foldl_stopEntry_bots (l : List (GoString × Nat)) (q : TelegramPlugin H) :
    (l.foldl TelegramPlugin.stopEntry q).bots.entries =
      l.foldl (fun acc e => deleteEntries e.1 acc) q.bots.entries := by
  induction l generalizing q with
  | nil => rfl
  | cons e rest ih =>
    simp only [List.foldl_cons]
    rw [ih]
    rfl

theorem foldl_stopEntry_heap (l : List (GoString × Nat)) (q : TelegramPlugin H) (b : Nat) :
    (l.foldl TelegramPlugin.stopEntry q).heap[b]? =
      if b ∈ l.map Prod.snd then (q.heap[b]?).map markCancelled else q.heap[b]? := by
  induction l generalizing q with
  | nil => simp
  | cons e rest ih =>
    simp only [List.foldl_cons]
    rw [ih]
    have hstep : (TelegramPlugin.stopEntry q e).heap[b]? =
        if b = e.2 then (q.heap[b]?).map markCancelled else q.heap[b]? := by
      show (modifyAt _ e.2 q.heap)[b]? = _
      rw [getElem?_modifyAt]; rfl
    rw [hstep]
    by_cases h1 : b = e.2
    · have hm : b ∈ (e :: rest).map Prod.snd := by simp [h1]
      rw [if_pos hm]
      by_cases h2 : b ∈ rest.map Prod.snd
      · rw [if_pos h2, if_pos h1]
        cases q.heap[b]? <;> rfl
      · rw [if_neg h2, if_pos h1]
    · by_cases h2 : b ∈ rest.map Prod.snd
      · have hm : b ∈ (e :: rest).map Prod.snd := by simp [h2]
        rw [if_pos h2, if_neg h1, if_pos hm]
      · have hm : ¬ b ∈ (e :: rest).map Prod.snd := by
          simp only [List.map_cons, List.mem_cons, not_or]
          exact ⟨h1, h2⟩
        rw [if_neg h2, if_neg h1, if_neg hm]

theorem stopAll_bots (p : TelegramPlugin H) : p.stopAll.bots.entries = [] := by
  unfold TelegramPlugin.stopAll
  rw [foldl_stopEntry_bots]
  exact foldl_deleteEntries_nil _ _ (fun x hx => hx)

theorem stopAll_heap (p : TelegramPlugin H) (b : Nat) :
    p.stopAll.heap[b]? =
      if b ∈ p.bots.entries.map Prod.snd then (p.heap[b]?).map markCancelled else p.heap[b]? :=
  foldl_stopEntry_heap _ p b

theorem stopBot_some (p : TelegramPlugin H) (token : GoString) (a : Nat)
    (h : p.bots.lookup token = some a) :
    p.stopBot token = ⟨modifyAt markCancelled a p.heap, p.bots.delete token⟩ := by
  simp only [TelegramPlugin.stopBot, h]
  rfl

theorem stopBot_none (p : TelegramPlugin H) (token : GoString)
    (h : p.bots.lookup token = none) : p.stopBot token = p := by
  simp only [TelegramPlugin.stopBot, h]

theorem ne_of_noSharing (p : TelegramPlugin H) (hns : p.NoSharing) {t t' : GoString}
    {a b : Nat} (ht : p.bots.lookup t = some a) (ht' : p.bots.lookup t' = some b)
    (hne : t ≠ t') : a ≠ b := by
  intro hab
  have h1 := lookupEntries_mem ht
  have h2 := lookupEntries_mem ht'
  have := List.inj_on_of_nodup_map hns h1 h2 hab
  exact hne (congrArg Prod.fst this)

end StopLemmas

/-- C11. In a table where no two tokens share an instance, `stopBot(token)`
removes the entry of `token` and cancels the instance stored under it; the
entry of every other token and the instance it points to (its cancellation
state included) are as before; without an entry for `token` nothing changes. -/
theorem stopBot_frame {H : Type} (p : TelegramPlugin H) (token : GoString)
    (hns : p.NoSharing) :
    (p.stopBot token).bots.lookup token = none ∧
    (∀ a, p.bots.lookup token = some a →
      (p.stopBot token).heap[a]? = (p.heap[a]?).map markCancelled) ∧
    (∀ t, t ≠ token → (p.stopBot token).bots.lookup t = p.bots.lookup t) ∧
    (∀ t b, t ≠ token → p.bots.lookup t = some b →
      (p.stopBot token).heap[b]? = p.heap[b]?) ∧
    (p.bots.lookup token = none → p.stopBot token = p) := by
  cases hl : p.bots.lookup token with
  | none =>
    rw [stopBot_none p token hl]
    refine ⟨hl, ?_, fun _ _ => rfl, fun _ _ _ _ => rfl, fun _ => rfl⟩
    intro a ha
    cases ha
  | some a =>
    rw [stopBot_some p token a hl]
    refine ⟨?_, ?_, ?_, ?_, fun h => by cases h⟩
    · simp [GoMap.lookup_delete]
    · intro a' ha'
      cases ha'
      show (modifyAt markCancelled a p.heap)[a]? = _
      rw [getElem?_modifyAt, if_pos rfl]
    · intro t ht
      have ht' : ¬ token = t := fun e => ht e.symm
      simp [GoMap.lookup_delete, ht']
    · intro t b ht hb
      have hne : b ≠ a := ne_of_noSharing p hns hb hl ht
      show (modifyAt markCancelled a p.heap)[b]? = _
      rw [getElem?_modifyAt, if_neg hne]

/-- C11 at `twoBots` and the token `tok`: the entry of `tok` is gone, its
instance (address 1) is cancelled, and `other` keeps its entry (address 0)
and its instance, which is live. -/
theorem stopBot_frame_witness :
    twoBots.NoSharing ∧
    (twoBots.stopBot (ascii "tok")).bots.lookup (ascii "tok") = none ∧
    (twoBots.stopBot (ascii "tok")).heap[1]? = (twoBots.heap[1]?).map markCancelled ∧
    (twoBots.stopBot (ascii "tok")).bots.lookup (ascii "other") = some 0 ∧
    (twoBots.stopBot (ascii "tok")).heap[0]? = twoBots.heap[0]? ∧
    twoBots.cancelledAt 0 = some false := by
  have h := stopBot_frame twoBots (ascii "tok") (by decide)
  exact ⟨by decide, h.1, h.2.1 1 (by decide),
    (h.2.2.1 (ascii "other") (by decide)).trans (by decide),
    h.2.2.2.1 (ascii "other") 0 (by decide) (by decide), by decide⟩

/-- C12. After `stopAll` the table is empty, every instance that was in the
table when `stopAll` was called is cancelled, and the instances that were
not in the table are as before. -/
theorem stopAll_clears {H : Type} (p : TelegramPlugin H) :
    p.stopAll.bots.entries = [] ∧
    (∀ t, p.stopAll.bots.lookup t = none) ∧
    (∀ e ∈ p.bots.entries, p.stopAll.heap[e.2]? = (p.heap[e.2]?).map markCancelled) ∧
    (∀ b, b ∉ p.bots.entries.map Prod.snd → p.stopAll.heap[b]? = p.heap[b]?) := by
  refine ⟨stopAll_bots p, ?_, ?_, ?_⟩
  · intro t
    simp [GoMap.lookup, stopAll_bots p, lookupEntries]
  · intro e he
    rw [stopAll_heap, if_pos (List.mem_map_of_mem Prod.snd he)]
  · intro b hb
    rw [stopAll_heap, if_neg hb]

/-- C12 at `twoBots`: the table is empty and both instances are cancelled. -/
theorem stopAll_clears_witness :
    (ascii "other", 0) ∈ twoBots.bots.entries ∧ (ascii "tok", 1) ∈ twoBots.bots.entries ∧
    twoBots.stopAll.bots.entries = [] ∧
    twoBots.stopAll.heap[0]? = (twoBots.heap[0]?).map markCancelled ∧
    twoBots.stopAll.heap[1]? = (twoBots.heap[1]?).map markCancelled := by
  have h := stopAll_clears twoBots
  exact ⟨by decide, by decide, h.1, h.2.2.1 (ascii "other", 0) (by decide),
    h.2.2.1 (ascii "tok", 1) (by decide)⟩

/-! ## The invariant of the instance manager -/

section ManagerLemmas

variable {H : Type}

theorem getElem?_retiredHeap (p : TelegramPlugin H) (token : GoString) (a : Nat) :
    (retiredHeap p token)[a]? =
      if p.bots.lookup token = some a then (p.heap[a]?).map markCancelled else p.heap[a]? := by
  unfold retiredHeap
  cases hl : p.bots.lookup token with
  | none => simp
  | some a₀ =>
    show (modifyAt markCancelled a₀ p.heap)[a]? = _
    rw [getElem?_modifyAt]
    by_cases h : a = a₀
    · subst h; simp
    · have h' : ¬ a₀ = a := fun e => h e.symm
      simp [h, h']

/-- What every call of `startBot` does to the state: the instance under
`token` is cancelled and one instance is appended; on success the new
instance is live and becomes the entry of `token`, on failure it is
cancelled and the table gains no entry. -/
theorem startBot_shape (p : TelegramPlugin H) (token : GoString) (created : Bool)
    (callback : Option (SetupCallback H)) :
    ∃ x bots', (p.startBot token created callback).1 = ⟨retiredHeap p token ++ [x], bots'⟩ ∧
      ((x.cancelled = false ∧
          ∀ t, bots'.lookup t = if token = t then some p.heap.length else p.bots.lookup t) ∨
       (x.cancelled = true ∧ (∀ t a, bots'.lookup t = some a → p.bots.lookup t = some a) ∧
          ∀ t, t ≠ token → bots'.lookup t = p.bots.lookup t)) := by
  cases created with
  | false =>
    rw [startBot_create_failed]
    exact ⟨_, _, rfl, Or.inr ⟨rfl, fun _ _ h => h, fun _ _ => rfl⟩⟩
  | true =>
    by_cases hs : succeeds callback
    · rw [startBot_ok p token callback hs]
      refine ⟨_, _, rfl, Or.inl ⟨?_, fun t => GoMap.lookup_set _ _ _ _⟩⟩
      rw [runSetup_cancelled]; rfl
    · cases callback with
      | none => exact absurd trivial hs
      | some cb =>
        have hf : cb.fails = true := by
          cases h : cb.fails with
          | true => rfl
          | false => exact absurd h hs
        rw [startBot_setup_failed p token cb hf]
        refine ⟨_, _, rfl, Or.inr ⟨rfl, ?_, ?_⟩⟩
        · intro t a h
          rw [GoMap.lookup_delete, GoMap.lookup_set] at h
          by_cases ht : token = t
          · simp [ht] at h
          · simpa [ht] using h
        · intro t ht
          have ht' : ¬ token = t := fun e => ht e.symm
          simp [GoMap.lookup_delete, GoMap.lookup_set, ht']

theorem length_foldl_stopEntry (l : List (GoString × Nat)) (q : TelegramPlugin H) :
    (l.foldl TelegramPlugin.stopEntry q).heap.length = q.heap.length := by
  induction l generalizing q with
  | nil => rfl
  | cons e rest ih =>
    simp only [List.foldl_cons]
    rw [ih]
    exact length_modifyAt _ _ _

theorem getElem?_append_of_some {α : Type} (l : List α) (x : α) (a : Nat) (v : α)
    (h : l[a]? = some v) : (l ++ [x])[a]? = some v := by
  have hlt : a < l.length := by
    by_contra hc
    rw [List.getElem?_eq_none (Nat.le_of_not_lt hc)] at h
    cases h
  rw [List.getElem?_append_left hlt, h]

theorem managerInv_startBot (p : TelegramPlugin H) (owner : List GoString)
    (token : GoString) (created : Bool) (callback : Option (SetupCallback H))
    (hinv : ManagerInv p owner) :
    ManagerInv (p.startBot token created callback).1 (owner ++ [token]) := by
  obtain ⟨h1, h2, h3⟩ := hinv
  obtain ⟨x, bots', he, hcase⟩ := startBot_shape p token created callback
  rw [he]
  have hlen : (retiredHeap p token).length = owner.length := by
    rw [length_retiredHeap, h1]
  have hold : ∀ t a, bots'.lookup t = some a → t ≠ token → p.bots.lookup t = some a := by
    intro t a h ht
    rcases hcase with ⟨_, hb⟩ | ⟨_, hb, _⟩
    · have ht' : ¬ token = t := fun e => ht e.symm
      rw [hb t, if_neg ht'] at h; exact h
    · exact hb t a h
  have hkeep : ∀ t, t ≠ token → bots'.lookup t = p.bots.lookup t := by
    intro t ht
    rcases hcase with ⟨_, hb⟩ | ⟨_, _, hb⟩
    · have ht' : ¬ token = t := fun e => ht e.symm
      rw [hb t, if_neg ht']
    · exact hb t ht
  refine ⟨by simp [hlen], ?_, ?_⟩
  · intro t a h
    show (owner ++ [token])[a]? = some t
    by_cases ht : t = token
    · subst ht
      rcases hcase with ⟨_, hb⟩ | ⟨_, hb, _⟩
      · rw [hb t, if_pos rfl] at h
        cases h
        rw [h1]; simp
      · exact getElem?_append_of_some _ _ _ _ (h2 t a (hb t a h))
    · exact getElem?_append_of_some _ _ _ _ (h2 t a (hold t a h ht))
  · intro a inst ha hlive
    show ∃ t, (owner ++ [token])[a]? = some t ∧ bots'.lookup t = some a
    change (retiredHeap p token ++ [x])[a]? = some inst at ha
    by_cases hlt : a < (retiredHeap p token).length
    · rw [List.getElem?_append_left hlt, getElem?_retiredHeap] at ha
      by_cases hex : p.bots.lookup token = some a
      · rw [if_pos hex] at ha
        cases hp : p.heap[a]? with
        | none => rw [hp] at ha; cases ha
        | some i₀ =>
          rw [hp] at ha
          simp only [Option.map_some', Option.some.injEq] at ha
          rw [← ha] at hlive
          cases hlive
      · rw [if_neg hex] at ha
        obtain ⟨t, ht, hlk⟩ := h3 a inst ha hlive
        have hne : t ≠ token := by
          intro e; rw [e] at hlk; exact hex hlk
        exact ⟨t, getElem?_append_of_some _ _ _ _ ht, by rw [hkeep t hne]; exact hlk⟩
    · by_cases heq : a = (retiredHeap p token).length
      · subst heq
        simp only [List.getElem?_concat_length, Option.some.injEq] at ha
        subst ha
        rcases hcase with ⟨_, hb⟩ | ⟨hx, _, _⟩
        · refine ⟨token, by rw [hlen]; simp, ?_⟩
          rw [hb token, if_pos rfl, length_retiredHeap]
        · rw [hx] at hlive; cases hlive
      · have hge : (retiredHeap p token ++ [x]).length ≤ a := by
          simp only [List.length_append, List.length_singleton]; omega
        rw [List.getElem?_eq_none hge] at ha
        cases ha

theorem managerInv_stopBot (p : TelegramPlugin H) (owner : List GoString) (token : GoString)
    (hinv : ManagerInv p owner) : ManagerInv (p.stopBot token) owner := by
  obtain ⟨h1, h2, h3⟩ := hinv
  cases hl : p.bots.lookup token with
  | none => rw [stopBot_none p token hl]; exact ⟨h1, h2, h3⟩
  | some a₀ =>
    rw [stopBot_some p token a₀ hl]
    refine ⟨by simp [length_modifyAt, h1], ?_, ?_⟩
    · intro t a h
      rw [GoMap.lookup_delete] at h
      by_cases ht : token = t
      · simp [ht] at h
      · rw [if_neg ht] at h; exact h2 t a h
    · intro a inst ha hlive
      change (modifyAt markCancelled a₀ p.heap)[a]? = some inst at ha
      rw [getElem?_modifyAt] at ha
      by_cases hex : a = a₀
      · rw [if_pos hex] at ha
        cases hp : p.heap[a]? with
        | none => rw [hp] at ha; cases ha
        | some i₀ =>
          rw [hp] at ha
          simp only [Option.map_some', Option.some.injEq] at ha
          rw [← ha] at hlive
          cases hlive
      · rw [if_neg hex] at ha
        obtain ⟨t, ht, hlk⟩ := h3 a inst ha hlive
        have hne : ¬ token = t := by
          intro e; rw [← e, hl] at hlk; cases hlk; exact hex rfl
        exact ⟨t, ht, by rw [GoMap.lookup_delete, if_neg hne]; exact hlk⟩

theorem managerInv_stopAll (p : TelegramPlugin H) (owner : List GoString)
    (hinv : ManagerInv p owner) : ManagerInv p.stopAll owner := by
  obtain ⟨h1, h2, h3⟩ := hinv
  have hnone : ∀ t, p.stopAll.bots.lookup t = none := by
    intro t; simp [GoMap.lookup, stopAll_bots p, lookupEntries]
  refine ⟨?_, ?_, ?_⟩
  · rw [← h1]; exact length_foldl_stopEntry _ p
  · intro t a h
    rw [hnone t] at h; cases h
  · intro a inst ha hlive
    rw [stopAll_heap] at ha
    by_cases hm : a ∈ p.bots.entries.map Prod.snd
    · rw [if_pos hm] at ha
      cases hp : p.heap[a]? with
      | none => rw [hp] at ha; cases ha
      | some i₀ =>
        rw [hp] at ha
        simp only [Option.map_some', Option.some.injEq] at ha
        rw [← ha] at hlive
        cases hlive
    · rw [if_neg hm] at ha
      obtain ⟨t, _, hlk⟩ := h3 a inst ha hlive
      exact absurd (List.mem_map_of_mem Prod.snd (lookupEntries_mem hlk)) hm

theorem managerInv_fresh : ManagerInv (fresh : TelegramPlugin H) [] := by
  refine ⟨rfl, ?_, ?_⟩
  · intro t a h; cases h
  · intro a inst h; cases h

theorem createdFor_cons (op : Op H) (rest : List (Op H)) :
    createdFor (op :: rest) = createdFor [op] ++ createdFor rest := by
  cases op <;> rfl

theorem managerInv_runOps (ops : List (Op H)) (p : TelegramPlugin H) (owner : List GoString)
    (hinv : ManagerInv p owner) : ManagerInv (runOps p ops) (owner ++ createdFor ops) := by
  induction ops generalizing p owner with
  | nil => simpa [runOps, createdFor] using hinv
  | cons op rest ih =>
    have hstep : ManagerInv (step p op) (owner ++ createdFor [op]) := by
      cases op with
      | start token created callback =>
        exact managerInv_startBot p owner token created callback hinv
      | stop token => simpa [createdFor] using managerInv_stopBot p owner token hinv
      | stopAll => simpa [createdFor] using managerInv_stopAll p owner hinv
    have := ih (step p op) (owner ++ createdFor [op]) hstep
    rw [createdFor_cons, ← List.append_assoc]
    exact this

end ManagerLemmas

theorem lookupEntries_of_mem {V : Type} {k : GoString} {v : V} {l : List (GoString × V)}
    (hnd : (l.map Prod.fst).Nodup) (h : (k, v) ∈ l) : lookupEntries k l = some v := by
  induction l with
  | nil => cases h
  | cons e rest ih =>
    obtain ⟨k', v'⟩ := e
    simp only [List.map_cons, List.nodup_cons] at hnd
    rcases List.mem_cons.mp h with h | h
    · cases h; simp [lookupEntries]
    · have hk : k' ≠ k := by
        intro e; subst e
        exact hnd.1 (List.mem_map_of_mem Prod.fst h)
      simp only [lookupEntries, hk, if_false]
      exact ih hnd.2 h

/-- In every state the operations can reach, no two tokens share an instance. -/
theorem noSharing_runOps {H : Type} (ops : List (Op H)) :
    (runOps (fresh : TelegramPlugin H) ops).NoSharing := by
  have hinv := managerInv_runOps ops fresh [] managerInv_fresh
  obtain ⟨_, h2, _⟩ := hinv
  unfold TelegramPlugin.NoSharing
  refine List.Nodup.map_on ?_ (List.Nodup.of_map Prod.fst (runOps fresh ops).bots.nodup)
  rintro ⟨t, a⟩ ht ⟨t', a'⟩ ht' (hab : a = a')
  subst hab
  have e1 := h2 t a (lookupEntries_of_mem (runOps fresh ops).bots.nodup ht)
  have e2 := h2 t' a (lookupEntries_of_mem (runOps fresh ops).bots.nodup ht')
  rw [e1] at e2
  cases e2
  rfl

/-- C13. In every state reached from the empty table by calls of `startBot`
(with any outcome), `stopBot` and `stopAll`: an instance that is not
cancelled is the table's entry for the token it was created for, and so of
the instances created for one token at most one is not cancelled. -/
theorem one_live_instance_per_token {H : Type} (ops : List (Op H)) :
    (runOps (fresh : TelegramPlugin H) ops).heap.length = (createdFor ops).length ∧
    (∀ (a : Nat) (inst : BotInstance H) (t : GoString),
      (runOps (fresh : TelegramPlugin H) ops).heap[a]? = some inst →
      inst.cancelled = false → (createdFor ops)[a]? = some t →
      (runOps (fresh : TelegramPlugin H) ops).bots.lookup t = some a) ∧
    (∀ (a b : Nat) (instA instB : BotInstance H) (t : GoString),
      (runOps (fresh : TelegramPlugin H) ops).heap[a]? = some instA →
      (runOps (fresh : TelegramPlugin H) ops).heap[b]? = some instB →
      instA.cancelled = false → instB.cancelled = false →
      (createdFor ops)[a]? = some t → (createdFor ops)[b]? = some t → a = b) := by
  have hinv := managerInv_runOps ops (fresh : TelegramPlugin H) [] managerInv_fresh
  simp only [List.nil_append] at hinv
  obtain ⟨h1, _, h3⟩ := hinv
  have key : ∀ a inst t, (runOps (fresh : TelegramPlugin H) ops).heap[a]? = some inst →
      inst.cancelled = false → (createdFor ops)[a]? = some t →
      (runOps (fresh : TelegramPlugin H) ops).bots.lookup t = some a := by
    intro a inst t ha hlive hown
    obtain ⟨t', ht', hlk⟩ := h3 a inst ha hlive
    rw [hown] at ht'
    cases ht'
    exact hlk
  refine ⟨h1, key, ?_⟩
  intro a b instA instB t ha hb hla hlb hoa hob
  have e1 := key a instA t ha hla hoa
  have e2 := key b instB t hb hlb hob
  rw [e1] at e2
  cases e2
  rfl

/-- C13 at `history`: of the three instances created for `tok` (addresses
0, 1, 2) only the last is live, and it is the table's entry for `tok`. -/
theorem one_live_instance_per_token_witness :
    (runOps fresh history).cancelledAt 0 = some true ∧
    (runOps fresh history).cancelledAt 1 = some true ∧
    (runOps fresh history).cancelledAt 2 = some false ∧
    (runOps fresh history).bots.lookup (ascii "tok") = some 2 :=
  ⟨by decide, by decide, by decide,
   (one_live_instance_per_token history).2.1 2 (runSetup (callsOf setupB) newInstance)
      (ascii "tok") rfl rfl (by decide)⟩

/-! ## Registration -/

theorem setEntries_setEntries {V : Type} (k : GoString) (v₁ v₂ : V)
    (l : List (GoString × V)) :
    setEntries k v₂ (setEntries k v₁ l) = setEntries k v₂ l := by
  induction l with
  | nil => simp [setEntries]
  | cons e rest ih =>
    obtain ⟨k', v'⟩ := e
    by_cases h : k' = k
    · simp [setEntries, h]
    · simp [setEntries, h, ih]

theorem GoMap.ext_entries {V : Type} {m m' : GoMap V} (h : m.entries = m'.entries) :
    m = m' := by
  cases m; cases m'
  simp only at h
  subst h
  rfl

theorem GoMap.set_set {V : Type} (m : GoMap V) (k : GoString) (v₁ v₂ : V) :
    (m.set k v₁).set k v₂ = m.set k v₂ :=
  GoMap.ext_entries (setEntries_setEntries k v₁ v₂ m.entries)

/-- C14. Registering a pattern twice, through `handle` or through
`handleCallback`, gives the registry that the second registration alone
gives, and an event equal to the pattern is dispatched to the second
handler; `handleDefault` called twice leaves the second handler as the
default. -/
theorem last_write_wins {H : Type} (run : H → Update → HandlerOutcome) (inst : BotInstance H)
    (P : GoString) (h₁ h₂ : H) (m : Option Message) :
    createHandle (createHandle inst P h₁) P h₂ = createHandle inst P h₂ ∧
    createHandleCallback (createHandleCallback inst P h₁) P h₂ =
      createHandleCallback inst P h₂ ∧
    createHandleDefault (createHandleDefault inst h₁) h₂ = createHandleDefault inst h₂ ∧
    (createHandleDefault (createHandleDefault inst h₁) h₂).defaultHandler = some h₂ ∧
    (handleUpdate run (createHandle (createHandle inst P h₁) P h₂)
      ⟨some ⟨P⟩, none⟩).invoked = [(.entry P, h₂)] ∧
    (handleUpdate run (createHandleCallback (createHandleCallback inst P h₁) P h₂)
      ⟨m, some ⟨P⟩⟩).invoked = [(.entry P, h₂)] := by
  refine ⟨?_, ?_, rfl, rfl, ?_, ?_⟩
  · simp only [createHandle, GoMap.set_set]
  · simp only [createHandleCallback, GoMap.set_set]
  · rw [handleUpdate_message_exact run _ ⟨some ⟨P⟩, none⟩ ⟨P⟩ h₂ rfl rfl
      (by simp [createHandle, GoMap.lookup_set]), callHandler_invoked]
  · rw [handleUpdate_callback_exact run _ ⟨m, some ⟨P⟩⟩ ⟨P⟩ h₂ rfl
      (by simp [createHandleCallback, GoMap.lookup_set]), callHandler_invoked]

/-! ## Plain message patterns -/

/-- C15. A message pattern `P` that does not begin with `/` (the empty
pattern and patterns ending in `*` included) matches by equality only: in a
registry whose only message entry is `P`, without default handler, a
message with a text other than `P` gets no handler called. -/
theorem plain_pattern_exact_only {H : Type} (run : H → Update → HandlerOutcome)
    (inst : BotInstance H) (update : Update) (msg : Message) (P : GoString) (h : H)
    (hP : P.head? ≠ some 47)
    (hentries : inst.handlers.entries = [(P, h)])
    (hdef : inst.defaultHandler = none)
    (hcb : update.CallbackQuery = none) (hmsg : update.Message = some msg)
    (hne : msg.Text ≠ P) :
    (handleUpdate run inst update).invoked = [] ∧ (handleUpdate run inst update).trace = [] ∧
      (handleUpdate run inst update).returned := by
  have hno : ¬ matchesEntry inst update := by
    simp only [matchesEntry, hcb, hmsg, hentries, List.mem_singleton, exists_eq_left, not_or]
    exact ⟨fun e => hne e.symm, fun hr => hP hr.1⟩
  rw [handleUpdate_no_match run inst update (Or.inr (by simp [hmsg])) hno, hdef]
  exact ⟨rfl, rfl, rfl⟩

/-- C15 at `Help` with the text `Help me`, and at the message pattern `foo*`
with the text `foobar`. -/
theorem plain_pattern_exact_only_witness :
    (handleUpdate alwaysPanics helpOnly ⟨some ⟨ascii "Help me"⟩, none⟩).invoked = [] ∧
    (handleUpdate alwaysPanics fooStarMessage ⟨some ⟨ascii "foobar"⟩, none⟩).invoked = [] :=
  ⟨(plain_pattern_exact_only alwaysPanics helpOnly ⟨some ⟨ascii "Help me"⟩, none⟩
      ⟨ascii "Help me"⟩ (ascii "Help") 4 (by decide) rfl rfl rfl rfl (by decide)).1,
   (plain_pattern_exact_only alwaysPanics fooStarMessage ⟨some ⟨ascii "foobar"⟩, none⟩
      ⟨ascii "foobar"⟩ (ascii "foo*") 6 (by decide) rfl rfl rfl rfl (by decide)).1⟩

/-! ## Several matching patterns -/

theorem rangeLoop_first {H : Type} (run : H → Update → HandlerOutcome)
    (test : GoString → Except Panic Bool) (update : Update)
    (front : List (GoString × H)) (e : GoString × H) (back : List (GoString × H))
    (hfront : ∀ x ∈ front, test x.1 = .ok false) (he : test e.1 = .ok true) :
    rangeLoop run test update (front ++ e :: back) =
      some (callHandler run (.entry e.1) e.2 update) := by
  induction front with
  | nil =>
    obtain ⟨k, v⟩ := e
    simp only [List.nil_append, rangeLoop, he]
  | cons x rest ih =>
    obtain ⟨k, v⟩ := x
    have hk : test k = .ok false := hfront (k, v) (List.mem_cons_self _ _)
    simp only [List.cons_append, rangeLoop, hk]
    exact ih (fun y hy => hfront y (List.mem_cons_of_mem _ hy))

/-- C16, as the code has it.  Without an exact match, the handler called is
that of the first matching entry in the order in which the `range` loop
yields the entries of the table: entries `front`, none of which matches,
then the matching entry `e`, whose handler is called, whatever follows. -/
theorem first_match_in_range_order {H : Type} (run : H → Update → HandlerOutcome)
    (inst : BotInstance H) (update : Update)
    (front : List (GoString × H)) (e : GoString × H) (back : List (GoString × H)) :
    (∀ cq, update.CallbackQuery = some cq → inst.callbacks.lookup cq.Data = none →
      inst.callbacks.entries = front ++ e :: back →
      (∀ x ∈ front, ¬ wildcardRule x.1 cq.Data) → wildcardRule e.1 cq.Data →
      handleUpdate run inst update = callHandler run (.entry e.1) e.2 update) ∧
    (∀ msg, update.CallbackQuery = none → update.Message = some msg →
      inst.handlers.lookup msg.Text = none →
      inst.handlers.entries = front ++ e :: back →
      (∀ x ∈ front, ¬ commandRule x.1 msg.Text) → commandRule e.1 msg.Text →
      handleUpdate run inst update = callHandler run (.entry e.1) e.2 update) := by
  constructor
  · intro cq hcb hl hsplit hfront he
    have hloop := rangeLoop_first run (fun pattern => callbackMatches pattern cq.Data) update
      front e back (fun x hx => (callbackMatches_eq x.1 cq.Data).2 (hfront x hx))
      ((callbackMatches_eq e.1 cq.Data).1 he)
    simp only [handleUpdate, hcb, hl, hsplit, hloop]
  · intro msg hcb hmsg hl hsplit hfront he
    have hloop := rangeLoop_first run (fun pattern => commandMatches pattern msg.Text) update
      front e back (fun x hx => (commandMatches_eq x.1 msg.Text).2 (hfront x hx))
      ((commandMatches_eq e.1 msg.Text).1 he)
    simp only [handleUpdate, hcb, hmsg, hl, hsplit, hloop]

/-- C16 as amended, at the data `abc`: in `wildcardsAB` the first matching
entry is `a*`, in `wildcardsBA` it is `ab*`. -/
theorem first_match_in_range_order_witness :
    handleUpdate alwaysPanics wildcardsAB ⟨none, some ⟨ascii "abc"⟩⟩ =
      callHandler alwaysPanics (.entry (ascii "a*")) 1 ⟨none, some ⟨ascii "abc"⟩⟩ ∧
    handleUpdate alwaysPanics wildcardsBA ⟨none, some ⟨ascii "abc"⟩⟩ =
      callHandler alwaysPanics (.entry (ascii "ab*")) 2 ⟨none, some ⟨ascii "abc"⟩⟩ :=
  ⟨(first_match_in_range_order alwaysPanics wildcardsAB ⟨none, some ⟨ascii "abc"⟩⟩
      [] (ascii "a*", 1) [(ascii "ab*", 2)]).1 ⟨ascii "abc"⟩ rfl (by decide) rfl
      (fun x hx => by cases hx) ⟨ascii "a", by decide, by decide⟩,
   (first_match_in_range_order alwaysPanics wildcardsBA ⟨none, some ⟨ascii "abc"⟩⟩
      [] (ascii "ab*", 2) [(ascii "a*", 1)]).1 ⟨ascii "abc"⟩ rfl (by decide) rfl
      (fun x hx => by cases hx) ⟨ascii "ab", by decide, by decide⟩⟩

/-- C16 as stated fails.  `wildcardsAB` and `wildcardsBA` hold the same
entries, the data `abc` has no exact match and is matched by both wildcards,
and the two dispatches call different handlers: the choice is not a function
of the registry contents and the event alone. -/
theorem tie_break_depends_on_order :
    ¬ ∀ (inst inst' : BotInstance Nat) (cq : CallbackQuery),
      inst.callbacks.entries.Perm inst'.callbacks.entries →
      inst.handlers.entries.Perm inst'.handlers.entries →
      inst.defaultHandler = inst'.defaultHandler →
      inst.callbacks.lookup cq.Data = none →
      (∃ e₁ ∈ inst.callbacks.entries, ∃ e₂ ∈ inst.callbacks.entries,
        e₁.1 ≠ e₂.1 ∧ wildcardRule e₁.1 cq.Data ∧ wildcardRule e₂.1 cq.Data) →
      (handleUpdate (fun _ _ => HandlerOutcome.value) inst ⟨none, some cq⟩).invoked =
        (handleUpdate (fun _ _ => HandlerOutcome.value) inst' ⟨none, some cq⟩).invoked := by
  intro hall
  have h := hall wildcardsAB wildcardsBA ⟨ascii "abc"⟩ (List.Perm.swap _ _ _)
    (List.Perm.refl _) rfl (by decide)
    ⟨(ascii "a*", 1), by decide, (ascii "ab*", 2), by decide, by decide,
      ⟨ascii "a", by decide, by decide⟩, ⟨ascii "ab", by decide, by decide⟩⟩
  revert h
  decide

/-! ## Failures that are returned, not raised -/

theorem callHandler_error {H : Type} (run : H → Update → HandlerOutcome) (slot : Slot)
    (handler : H) (update : Update) (detail : GoString)
    (h : run handler update = .error detail) :
    callHandler run slot handler update = ⟨[.invoke slot handler update], .ok ()⟩ := by
  simp only [callHandler, h]

theorem callHandler_panic {H : Type} (run : H → Update → HandlerOutcome) (slot : Slot)
    (handler : H) (update : Update) (r : Panic) (h : run handler update = .panic r) :
    callHandler run slot handler update =
      ⟨[.invoke slot handler update, .print r], .ok ()⟩ := by
  simp only [callHandler, h]
  rfl

/-- C17, the code at the failing input.  A handler whose call returns an
error (the script threw `TypeError`) is called and `callHandler` prints
nothing; the same failure raised as a panic is printed. -/
theorem returned_error_not_printed :
    (callHandler alwaysThrows (.entry (ascii "/start")) 1
      ⟨some ⟨ascii "/start"⟩, none⟩).trace =
        [.invoke (.entry (ascii "/start")) 1 ⟨some ⟨ascii "/start"⟩, none⟩] ∧
    (callHandler alwaysThrows (.entry (ascii "/start")) 1
      ⟨some ⟨ascii "/start"⟩, none⟩).printed = [] ∧
    (handleUpdate alwaysThrows startOnly ⟨some ⟨ascii "/start"⟩, none⟩).printed = [] ∧
    (callHandler alwaysPanics (.entry (ascii "/start")) 1
      ⟨some ⟨ascii "/start"⟩, none⟩).printed = [.raised (ascii "boom")] := by
  decide

/-! ## Classification of updates, and one call per update -/

/-- What `handleUpdate` does with a callback: it calls a handler stored in
`callbacks`, or the default handler, or nothing. -/
theorem handleUpdate_callback_cases {H : Type} (run : H → Update → HandlerOutcome)
    (inst : BotInstance H) (update : Update) (cq : CallbackQuery)
    (hcb : update.CallbackQuery = some cq) :
    (∃ key h, inst.callbacks.lookup key = some h ∧
      handleUpdate run inst update = callHandler run (.entry key) h update) ∨
    (∃ d, inst.defaultHandler = some d ∧
      handleUpdate run inst update = callHandler run .fallback d update) ∨
    handleUpdate run inst update = .done := by
  rcases hl : inst.callbacks.lookup cq.Data with _ | h
  · by_cases hex : ∃ e ∈ inst.callbacks.entries, callbackMatches e.1 cq.Data = .ok true
    · obtain ⟨e, he, _, hr⟩ := rangeLoop_eq_some run
        (fun pattern => callbackMatches pattern cq.Data) update inst.callbacks.entries
        (fun e _ => by
          by_cases hw : wildcardRule e.1 cq.Data
          · exact ⟨true, (callbackMatches_eq e.1 cq.Data).1 hw⟩
          · exact ⟨false, (callbackMatches_eq e.1 cq.Data).2 hw⟩) hex
      exact Or.inl ⟨e.1, e.2, lookupEntries_of_mem inst.callbacks.nodup he,
        by simp only [handleUpdate, hcb, hl, hr]⟩
    · have hloop := rangeLoop_eq_none run (fun pattern => callbackMatches pattern cq.Data)
        update inst.callbacks.entries (fun e he => by
          by_cases hw : wildcardRule e.1 cq.Data
          · exact absurd ⟨e, he, (callbackMatches_eq e.1 cq.Data).1 hw⟩ hex
          · exact (callbackMatches_eq e.1 cq.Data).2 hw)
      rcases hd : inst.defaultHandler with _ | d
      · exact Or.inr (Or.inr (by simp only [handleUpdate, hcb, hl, hloop, hd]))
      · exact Or.inr (Or.inl ⟨d, rfl, by simp only [handleUpdate, hcb, hl, hloop, hd]⟩)
  · exact Or.inl ⟨cq.Data, h, hl, handleUpdate_callback_exact run inst update cq h hcb hl⟩

theorem rangeLoop_invoked_update {H : Type} (run : H → Update → HandlerOutcome)
    (test : GoString → Except Panic Bool) (u u' : Update) (l : List (GoString × H)) :
    (rangeLoop run test u l).map Result.invoked = (rangeLoop run test u' l).map Result.invoked := by
  induction l with
  | nil => rfl
  | cons e rest ih =>
    obtain ⟨k, v⟩ := e
    simp only [rangeLoop]
    cases test k with
    | error p => rfl
    | ok b =>
      cases b with
      | true => simp only [Option.map_some', callHandler_invoked]
      | false => exact ih

/-- C18. An update with neither a callback query nor a message gets no
handler called, default handler or not.  An update with a callback query is
routed by its data against `callbacks`: the outcome does not depend on the
table `handlers`, the handler called does not depend on the message the
update may carry besides, and it is a handler of `callbacks` or the default
handler. -/
theorem event_classification {H : Type} (run : H → Update → HandlerOutcome)
    (inst : BotInstance H) (update : Update) :
    (update.CallbackQuery = none → update.Message = none →
      handleUpdate run inst update = .done) ∧
    (∀ cq (hs : GoMap H), update.CallbackQuery = some cq →
      handleUpdate run { inst with handlers := hs } update = handleUpdate run inst update) ∧
    (∀ cq (m : Option Message), update.CallbackQuery = some cq →
      (handleUpdate run inst ⟨m, some cq⟩).invoked = (handleUpdate run inst update).invoked) ∧
    (∀ cq s h, update.CallbackQuery = some cq →
      (s, h) ∈ (handleUpdate run inst update).invoked →
      (s = .fallback ∧ inst.defaultHandler = some h) ∨
        ∃ key, s = .entry key ∧ inst.callbacks.lookup key = some h) := by
  refine ⟨?_, ?_, ?_, ?_⟩
  · intro hcb hmsg
    simp only [handleUpdate, hcb, hmsg]
  · intro cq hs hcb
    simp only [handleUpdate, hcb]
  · intro cq m hcb
    obtain ⟨m₀, c₀⟩ := update
    simp only at hcb
    subst hcb
    simp only [handleUpdate]
    cases inst.callbacks.lookup cq.Data with
    | some h => simp only [callHandler_invoked]
    | none =>
      have hloop := rangeLoop_invoked_update run
        (fun pattern => callbackMatches pattern cq.Data) ⟨m, some cq⟩ ⟨m₀, some cq⟩
        inst.callbacks.entries
      cases h₁ : rangeLoop run (fun pattern => callbackMatches pattern cq.Data)
          ⟨m, some cq⟩ inst.callbacks.entries with
      | some r₁ =>
        cases h₂ : rangeLoop run (fun pattern => callbackMatches pattern cq.Data)
            ⟨m₀, some cq⟩ inst.callbacks.entries with
        | some r₂ =>
          rw [h₁, h₂] at hloop
          simpa using hloop
        | none => rw [h₁, h₂] at hloop; cases hloop
      | none =>
        cases h₂ : rangeLoop run (fun pattern => callbackMatches pattern cq.Data)
            ⟨m₀, some cq⟩ inst.callbacks.entries with
        | some r₂ => rw [h₁, h₂] at hloop; cases hloop
        | none =>
          cases inst.defaultHandler with
          | some d => simp only [callHandler_invoked]
          | none => rfl
  · intro cq s h hcb hin
    rcases handleUpdate_callback_cases run inst update cq hcb with
      ⟨key, h', hl, hr⟩ | ⟨d, hd, hr⟩ | hr
    · rw [hr, callHandler_invoked, List.mem_singleton] at hin
      cases hin
      exact Or.inr ⟨key, rfl, hl⟩
    · rw [hr, callHandler_invoked, List.mem_singleton] at hin
      cases hin
      exact Or.inl ⟨rfl, hd⟩
    · rw [hr] at hin
      cases hin

/-- C18 at `bothTables`: an empty update reaches no handler although there is
a default handler, and the update that carries the message `/start` and the
callback data `foobar` is dispatched as the callback alone is. -/
theorem event_classification_witness :
    handleUpdate alwaysPanics bothTables ⟨none, none⟩ = .done ∧
    (handleUpdate alwaysPanics bothTables ⟨none, some ⟨ascii "foobar"⟩⟩).invoked =
      (handleUpdate alwaysPanics bothTables
        ⟨some ⟨ascii "/start"⟩, some ⟨ascii "foobar"⟩⟩).invoked ∧
    (handleUpdate alwaysPanics bothTables
      ⟨some ⟨ascii "/start"⟩, some ⟨ascii "foobar"⟩⟩).invoked = [(.entry (ascii "foo*"), 5)] :=
  ⟨(event_classification alwaysPanics bothTables ⟨none, none⟩).1 rfl rfl,
   (event_classification alwaysPanics bothTables
      ⟨some ⟨ascii "/start"⟩, some ⟨ascii "foobar"⟩⟩).2.2.1 ⟨ascii "foobar"⟩ none rfl,
   by decide⟩

/-- C20. One call of `handleUpdate` calls at most one handler, once; when an
entry matches, the one call is that of a handler stored under a key, and the
default handler is not called. -/
theorem no_fall_through {H : Type} (run : H → Update → HandlerOutcome)
    (inst : BotInstance H) (update : Update) :
    (handleUpdate run inst update).invoked.length ≤ 1 ∧
    (matchesEntry inst update →
      ∃ key h, (handleUpdate run inst update).invoked = [(.entry key, h)]) := by
  by_cases hm : matchesEntry inst update
  · obtain ⟨key, h, hr⟩ := handleUpdate_match run inst update hm
    rw [hr, callHandler_invoked]
    exact ⟨le_refl _, fun _ => ⟨key, h, rfl⟩⟩
  · refine ⟨?_, fun h => absurd h hm⟩
    by_cases hev : update.CallbackQuery ≠ none ∨ update.Message ≠ none
    · rw [handleUpdate_no_match run inst update hev hm]
      cases inst.defaultHandler with
      | none => exact Nat.zero_le _
      | some d => rw [callHandler_invoked]; exact le_refl _
    · simp only [ne_eq, not_or, not_not] at hev
      simp only [handleUpdate, hev.1, hev.2]
      exact Nat.zero_le _

/-- C20 at `exactOverCommand` and the text `/start hello`, which is a key,
is matched by the command `/start`, and could go to the default handler:
one handler is called. -/
theorem no_fall_through_witness :
    matchesEntry exactOverCommand ⟨some ⟨ascii "/start hello"⟩, none⟩ ∧
    (handleUpdate alwaysPanics exactOverCommand
      ⟨some ⟨ascii "/start hello"⟩, none⟩).invoked.length ≤ 1 ∧
    ∃ key h, (handleUpdate alwaysPanics exactOverCommand
      ⟨some ⟨ascii "/start hello"⟩, none⟩).invoked = [(.entry key, h)] :=
  ⟨⟨(ascii "/start hello", 2), by decide, Or.inl rfl⟩,
   (no_fall_through alwaysPanics exactOverCommand ⟨some ⟨ascii "/start hello"⟩, none⟩).1,
   (no_fall_through alwaysPanics exactOverCommand ⟨some ⟨ascii "/start hello"⟩, none⟩).2
     ⟨(ascii "/start hello", 2), by decide, Or.inl rfl⟩⟩

/-! ## The scan over the table: soundness and completeness -/

/-- The callback loop, after a failed exact lookup: either the handler of a
matching entry is called, or no entry matches and no handler of the table is
called. -/
theorem handleUpdate_callback_scan {H : Type} (run : H → Update → HandlerOutcome)
    (inst : BotInstance H) (update : Update) (cq : CallbackQuery)
    (hcb : update.CallbackQuery = some cq) (hl : inst.callbacks.lookup cq.Data = none) :
    (∃ e ∈ inst.callbacks.entries, wildcardRule e.1 cq.Data ∧
      handleUpdate run inst update = callHandler run (.entry e.1) e.2 update) ∨
    ((∀ e ∈ inst.callbacks.entries, ¬ wildcardRule e.1 cq.Data) ∧
      ∀ key h, (Slot.entry key, h) ∉ (handleUpdate run inst update).invoked) := by
  by_cases hex : ∃ e ∈ inst.callbacks.entries, wildcardRule e.1 cq.Data
  · have hex' : ∃ e ∈ inst.callbacks.entries, callbackMatches e.1 cq.Data = .ok true := by
      obtain ⟨e, he, hr⟩ := hex
      exact ⟨e, he, (callbackMatches_eq e.1 cq.Data).1 hr⟩
    obtain ⟨e, he, ht, hr⟩ := rangeLoop_eq_some run
      (fun pattern => callbackMatches pattern cq.Data) update inst.callbacks.entries
      (fun e _ => by
        by_cases hw : wildcardRule e.1 cq.Data
        · exact ⟨true, (callbackMatches_eq e.1 cq.Data).1 hw⟩
        · exact ⟨false, (callbackMatches_eq e.1 cq.Data).2 hw⟩) hex'
    have hrule : wildcardRule e.1 cq.Data := by
      by_contra hn
      have hf := (callbackMatches_eq e.1 cq.Data).2 hn
      rw [hf] at ht
      cases ht
    exact Or.inl ⟨e, he, hrule, by simp only [handleUpdate, hcb, hl, hr]⟩
  · have hnone : ∀ e ∈ inst.callbacks.entries, ¬ wildcardRule e.1 cq.Data :=
      fun e he hr => hex ⟨e, he, hr⟩
    have hno : ¬ matchesEntry inst update := by
      simp only [matchesEntry, hcb, not_exists, not_and, not_or]
      exact fun e he => ⟨(lookupEntries_eq_none _ _).mp hl e he, hnone e he⟩
    refine Or.inr ⟨hnone, ?_⟩
    intro key h hin
    rw [handleUpdate_no_match run inst update (Or.inl (by simp [hcb])) hno] at hin
    cases hd : inst.defaultHandler with
    | none => rw [hd] at hin; cases hin
    | some d =>
      rw [hd] at hin
      simp only [callHandler_invoked, List.mem_singleton, Prod.mk.injEq] at hin
      cases hin.1

/-- The command loop, after a failed exact lookup: either the handler of a
matching entry is called, or no entry matches and no handler of the table is
called. -/
theorem handleUpdate_message_scan {H : Type} (run : H → Update → HandlerOutcome)
    (inst : BotInstance H) (update : Update) (msg : Message)
    (hcb : update.CallbackQuery = none) (hmsg : update.Message = some msg)
    (hl : inst.handlers.lookup msg.Text = none) :
    (∃ e ∈ inst.handlers.entries, commandRule e.1 msg.Text ∧
      handleUpdate run inst update = callHandler run (.entry e.1) e.2 update) ∨
    ((∀ e ∈ inst.handlers.entries, ¬ commandRule e.1 msg.Text) ∧
      ∀ key h, (Slot.entry key, h) ∉ (handleUpdate run inst update).invoked) := by
  by_cases hex : ∃ e ∈ inst.handlers.entries, commandRule e.1 msg.Text
  · have hex' : ∃ e ∈ inst.handlers.entries, commandMatches e.1 msg.Text = .ok true := by
      obtain ⟨e, he, hr⟩ := hex
      exact ⟨e, he, (commandMatches_eq e.1 msg.Text).1 hr⟩
    obtain ⟨e, he, ht, hr⟩ := rangeLoop_eq_some run
      (fun pattern => commandMatches pattern msg.Text) update inst.handlers.entries
      (fun e _ => by
        obtain ⟨b, hb, _⟩ := commandMatches_spec e.1 msg.Text
        exact ⟨b, hb⟩) hex'
    have hrule : commandRule e.1 msg.Text := by
      by_contra hn
      have hf := (commandMatches_eq e.1 msg.Text).2 hn
      rw [hf] at ht
      cases ht
    exact Or.inl ⟨e, he, hrule, by simp only [handleUpdate, hcb, hmsg, hl, hr]⟩
  · have hnone : ∀ e ∈ inst.handlers.entries, ¬ commandRule e.1 msg.Text :=
      fun e he hr => hex ⟨e, he, hr⟩
    have hno : ¬ matchesEntry inst update := by
      simp only [matchesEntry, hcb, hmsg, not_exists, not_and, not_or]
      exact fun e he => ⟨(lookupEntries_eq_none _ _).mp hl e he, hnone e he⟩
    refine Or.inr ⟨hnone, ?_⟩
    intro key h hin
    rw [handleUpdate_no_match run inst update (Or.inr (by simp [hmsg])) hno] at hin
    cases hd : inst.defaultHandler with
    | none => rw [hd] at hin; cases hin
    | some d =>
      rw [hd] at hin
      simp only [callHandler_invoked, List.mem_singleton, Prod.mk.injEq] at hin
      cases hin.1

/-- From "a matching entry is called, or none matches" to the three parts of
the scan property, for either table. -/
theorem scan_parts {H : Type} (entries : List (GoString × H)) (rule : GoString → Prop)
    (r : Result H) (run : H → Update → HandlerOutcome) (update : Update)
    (hscan : (∃ e ∈ entries, rule e.1 ∧ r = callHandler run (.entry e.1) e.2 update) ∨
      ((∀ e ∈ entries, ¬ rule e.1) ∧ ∀ key h, (Slot.entry key, h) ∉ r.invoked)) :
    (∀ key h, (Slot.entry key, h) ∈ r.invoked → (key, h) ∈ entries ∧ rule key) ∧
    ((∃ e ∈ entries, rule e.1) →
      ∃ e ∈ entries, rule e.1 ∧ r.invoked = [(.entry e.1, e.2)]) ∧
    (∀ e ∈ entries, rule e.1 → (∀ e' ∈ entries, rule e'.1 → e' = e) →
      r.invoked = [(.entry e.1, e.2)]) := by
  rcases hscan with ⟨e, he, hrule, hr⟩ | ⟨hnone, hnot⟩
  · have hinv : r.invoked = [(.entry e.1, e.2)] := by rw [hr, callHandler_invoked]
    refine ⟨?_, fun _ => ⟨e, he, hrule, hinv⟩, ?_⟩
    · intro key h hin
      rw [hinv, List.mem_singleton, Prod.mk.injEq, Slot.entry.injEq] at hin
      obtain ⟨h1, h2⟩ := hin
      subst h1 h2
      exact ⟨he, hrule⟩
    · intro e₀ _ _ huniq
      rw [← huniq e he hrule]
      exact hinv
  · refine ⟨fun key h hin => absurd hin (hnot key h), ?_, ?_⟩
    · rintro ⟨e, he, hr⟩
      exact absurd hr (hnone e he)
    · intro e he hr _
      exact absurd hr (hnone e he)

/-- C21. For an event without exact match, in whatever order the loop yields
the table: (a) a handler called from the table is stored under a key that
matches the event (a wildcard whose prefix the callback data starts with, a
command that matches the message text at a boundary); (b) if a key matches,
the handler of a matching key is called; so when one key matches, its
handler is the one called. -/
theorem scan_sound_and_complete {H : Type} (run : H → Update → HandlerOutcome)
    (inst : BotInstance H) (update : Update) :
    (∀ cq, update.CallbackQuery = some cq → inst.callbacks.lookup cq.Data = none →
      (∀ key h, (Slot.entry key, h) ∈ (handleUpdate run inst update).invoked →
        (key, h) ∈ inst.callbacks.entries ∧ wildcardRule key cq.Data) ∧
      ((∃ e ∈ inst.callbacks.entries, wildcardRule e.1 cq.Data) →
        ∃ e ∈ inst.callbacks.entries, wildcardRule e.1 cq.Data ∧
          (handleUpdate run inst update).invoked = [(.entry e.1, e.2)]) ∧
      (∀ e ∈ inst.callbacks.entries, wildcardRule e.1 cq.Data →
        (∀ e' ∈ inst.callbacks.entries, wildcardRule e'.1 cq.Data → e' = e) →
        (handleUpdate run inst update).invoked = [(.entry e.1, e.2)])) ∧
    (∀ msg, update.CallbackQuery = none → update.Message = some msg →
      inst.handlers.lookup msg.Text = none →
      (∀ key h, (Slot.entry key, h) ∈ (handleUpdate run inst update).invoked →
        (key, h) ∈ inst.handlers.entries ∧ commandRule key msg.Text) ∧
      ((∃ e ∈ inst.handlers.entries, commandRule e.1 msg.Text) →
        ∃ e ∈ inst.handlers.entries, commandRule e.1 msg.Text ∧
          (handleUpdate run inst update).invoked = [(.entry e.1, e.2)]) ∧
      (∀ e ∈ inst.handlers.entries, commandRule e.1 msg.Text →
        (∀ e' ∈ inst.handlers.entries, commandRule e'.1 msg.Text → e' = e) →
        (handleUpdate run inst update).invoked = [(.entry e.1, e.2)])) := by
  constructor
  · intro cq hcb hl
    exact scan_parts inst.callbacks.entries (fun key => wildcardRule key cq.Data) _ run update
      (handleUpdate_callback_scan run inst update cq hcb hl)
  · intro msg hcb hmsg hl
    exact scan_parts inst.handlers.entries (fun key => commandRule key msg.Text) _ run update
      (handleUpdate_message_scan run inst update msg hcb hmsg hl)

/-- C21 at the data `ax`, which only the wildcard `a*` matches: its handler
is called in `wildcardsAB` and in `wildcardsBA`, whichever entry the loop
yields first; and at the text `/start x` in `exactOverCommand`, which only
the command `/start` matches. -/
theorem scan_sound_and_complete_witness :
    (handleUpdate alwaysPanics wildcardsAB ⟨none, some ⟨ascii "ax"⟩⟩).invoked =
      [(.entry (ascii "a*"), 1)] ∧
    (handleUpdate alwaysPanics wildcardsBA ⟨none, some ⟨ascii "ax"⟩⟩).invoked =
      [(.entry (ascii "a*"), 1)] ∧
    (handleUpdate alwaysPanics exactOverCommand ⟨some ⟨ascii "/start x"⟩, none⟩).invoked =
      [(.entry (ascii "/start"), 1)] := by
  have hAB := ((scan_sound_and_complete alwaysPanics wildcardsAB
    ⟨none, some ⟨ascii "ax"⟩⟩).1 ⟨ascii "ax"⟩ rfl (by decide)).2.2
      (ascii "a*", 1) (by decide) ⟨ascii "a", by decide, by decide⟩ (by
        intro e' he' hr
        simp only [wildcardsAB, List.mem_cons, List.mem_singleton, List.not_mem_nil,
          or_false] at he'
        rcases he' with rfl | rfl
        · rfl
        · exfalso
          rw [show ascii "ab*" = ascii "ab" ++ [42] by decide, wildcardRule_concat] at hr
          revert hr
          decide)
  have hBA := ((scan_sound_and_complete alwaysPanics wildcardsBA
    ⟨none, some ⟨ascii "ax"⟩⟩).1 ⟨ascii "ax"⟩ rfl (by decide)).2.2
      (ascii "a*", 1) (by decide) ⟨ascii "a", by decide, by decide⟩ (by
        intro e' he' hr
        simp only [wildcardsBA, List.mem_cons, List.mem_singleton, List.not_mem_nil,
          or_false] at he'
        rcases he' with rfl | rfl
        · exfalso
          rw [show ascii "ab*" = ascii "ab" ++ [42] by decide, wildcardRule_concat] at hr
          revert hr
          decide
        · rfl)
  have hcmd := ((scan_sound_and_complete alwaysPanics exactOverCommand
    ⟨some ⟨ascii "/start x"⟩, none⟩).2 ⟨ascii "/start x"⟩ rfl rfl (by decide)).2.2
      (ascii "/start", 1) (by decide) (by unfold commandRule; decide) (by
        intro e' he' hr
        simp only [exactOverCommand, List.mem_cons, List.mem_singleton, List.not_mem_nil,
          or_false] at he'
        rcases he' with rfl | rfl
        · rfl
        · exfalso
          revert hr
          unfold commandRule
          decide)
  exact ⟨hAB, hBA, hcmd⟩

/-! ## Index safety of the matcher -/

/-- The checked index succeeds exactly in range. -/
theorem index_ok_iff (s : GoString) (i : Int) :
    (∃ b, index s i = .ok b) ↔ 0 ≤ i ∧ i < len s := by
  constructor
  · rintro ⟨b, hb⟩
    by_contra hn
    simp only [index, hn, if_false] at hb
    cases hb
  · intro h
    have hlt : i.toNat < s.length := by
      have h2 := h.2
      simp only [len] at h2
      omega
    refine ⟨s[i.toNat], ?_⟩
    simp only [index, h, and_self, if_true, List.getElem?_eq_getElem hlt]

/-- The checked slice succeeds exactly in range. -/
theorem slice_ok_iff (s : GoString) (lo hi : Int) :
    (∃ r, slice s lo hi = .ok r) ↔ 0 ≤ lo ∧ lo ≤ hi ∧ hi ≤ len s := by
  constructor
  · rintro ⟨r, hr⟩
    by_contra hn
    simp only [slice, hn, if_false] at hr
    cases hr
  · intro h
    exact ⟨(s.take hi.toNat).drop lo.toNat, by simp only [slice, h, and_self, if_true]⟩

/-- Without its guard the first read of the callback test is out of range:
`pattern[len(pattern)-1]` on the empty pattern panics, and so does
`text[cmdLen]` when the text ends at `cmdLen`. -/
theorem unguarded_reads_panic :
    index [] (len [] - 1) = .error .indexOutOfRange ∧
    index [] 0 = .error .indexOutOfRange ∧
    index (ascii "/start") (len (ascii "/start")) = .error .indexOutOfRange ∧
    slice (ascii "fo") 0 (len (ascii "foo")) = .error .sliceOutOfRange := by
  decide

/-- C22. For every pattern (the empty pattern and `*` included) and every
text or callback data (the empty string included) the two tests of the
matcher return a boolean and raise no range panic: every index and slice
they take passes the range check.  An empty pattern is rejected by the
length guard without a read.  So `handleUpdate` itself returns normally for
every registry and update. -/
theorem matcher_index_safety {H : Type} (run : H → Update → HandlerOutcome)
    (inst : BotInstance H) (update : Update) (pattern subject : GoString) :
    (∃ b, callbackMatches pattern subject = .ok b) ∧
    (∃ b, commandMatches pattern subject = .ok b) ∧
    callbackMatches [] subject = .ok false ∧
    commandMatches [] subject = .ok false ∧
    (handleUpdate run inst update).returned := by
  refine ⟨?_, ?_, callbackMatches_nil subject, ?_, handleUpdate_returned run inst update⟩
  · by_cases hw : wildcardRule pattern subject
    · exact ⟨true, (callbackMatches_eq pattern subject).1 hw⟩
    · exact ⟨false, (callbackMatches_eq pattern subject).2 hw⟩
  · obtain ⟨b, hb, _⟩ := commandMatches_spec pattern subject
    exact ⟨b, hb⟩
  · simp [commandMatches, len]

/-- C22 at the edges, evaluated: the empty pattern, the pattern `*`, the
pattern `/`, and the empty subject. -/
theorem matcher_edge_cases :
    callbackMatches [] [] = .ok false ∧
    callbackMatches (ascii "*") [] = .ok true ∧
    callbackMatches (ascii "foo*") [] = .ok false ∧
    callbackMatches (ascii "foo*") (ascii "fo") = .ok false ∧
    commandMatches [] [] = .ok false ∧
    commandMatches (ascii "/") [] = .ok false ∧
    commandMatches (ascii "/") (ascii "/") = .ok true ∧
    commandMatches (ascii "/start") (ascii "/star") = .ok false ∧
    commandMatches (ascii "/start") (ascii "/start") = .ok true := by
  decide

end Telegram
